import Mathlib

/-!
# Caltrain station synchroniser (`labs/train_station_mutex/caltrain.c`)

The three counters of `struct station` are embedded as a record of integers and
every lock-protected section of `caltrain.c` as a pure function on that record:
a section starts where the mutex is acquired (at `pthread_mutex_lock`, or when a
`pthread_cond_wait` returns) and ends where it is released (at
`pthread_mutex_unlock`, or when the thread goes to sleep in `pthread_cond_wait`).

The threads are then put together in an interleaving model `Sys`/`step`: one
program counter per passenger thread, at most one `station_load_train` call in
progress, and a step for each section.  A thread sleeping in `pthread_cond_wait`
may be woken at any time (POSIX allows spurious wake-ups), so every real
execution of the C code is a run of the model.

The C counters are `int`; signed overflow is undefined behaviour in C, so the
counters are modelled as mathematical integers.
-/

namespace Caltrain

/-! ## Data model (`caltrain.h`) -/

/-- The counters of `struct station`.  The mutex and the two condition variables
hold no data of their own: the mutex is modelled by the atomicity of the
sections, the condition variables by the `Exit.blocked` results and wake steps. -/
structure station where
  numnerOfEmptySeats : Int
  numnerOfWaitingPassengers : Int
  numnerOfPassengersWalkingOnTheTrain : Int
deriving DecidableEq, Repr

/-- How a lock-protected section ends: the thread sleeps in `pthread_cond_wait`
(releasing the mutex) or it unlocks the mutex and the function returns. -/
inductive Exit where
  | blocked
  | returned
deriving DecidableEq, Repr

/-- Result of one lock-protected section: the counters it leaves, how it ends,
and whether it called `pthread_cond_broadcast(&train_arrived)` or
`pthread_cond_signal(&all_passengers_seated)`. -/
structure Section where
  st : station
  exit : Exit
  broadcastArrived : Bool
  signalSeated : Bool
deriving DecidableEq, Repr

/-! ## The sections of `caltrain.c` -/

/-- `station_init`, lines 5-18: all three counters are set to zero. -/
def station_init (_s : station) : station :=
  { numnerOfEmptySeats := 0
    numnerOfWaitingPassengers := 0
    numnerOfPassengersWalkingOnTheTrain := 0 }

/-- The `if` test of `station_load_train`, line 29. -/
def load_train_announce (s : station) : Bool :=
  decide (s.numnerOfEmptySeats > 0) && decide (s.numnerOfWaitingPassengers > 0)

/-- The `while` test of `station_load_train`, lines 38-39. -/
def load_train_guard (s : station) : Bool :=
  (decide (s.numnerOfEmptySeats > 0) && decide (s.numnerOfWaitingPassengers > 0))
    || decide (s.numnerOfPassengersWalkingOnTheTrain > 0)

/-- One evaluation of the `while` loop of `station_load_train`, lines 38-49, with
the mutex held: if the test is true the train sleeps in `pthread_cond_wait`,
otherwise it resets the seats (line 46), unlocks and returns. -/
def station_load_train_loop (s : station) : Section :=
  if load_train_guard s then
    { st := s, exit := Exit.blocked, broadcastArrived := false, signalSeated := false }
  else
    { st := { s with numnerOfEmptySeats := 0 }, exit := Exit.returned,
      broadcastArrived := false, signalSeated := false }

/-- `station_load_train(station, count)` from `pthread_mutex_lock` (line 23) to
its first `pthread_cond_wait` or to its return. -/
def station_load_train_enter (s : station) (count : Int) : Section :=
  let s1 := { s with numnerOfEmptySeats := count }
  let r := station_load_train_loop s1
  { r with broadcastArrived := load_train_announce s1 }

/-- `station_load_train` from the return of `pthread_cond_wait` (line 42, mutex
re-acquired) to the next `pthread_cond_wait` or to its return. -/
def station_load_train_wake (s : station) : Section :=
  station_load_train_loop s

/-- The seat claim of `station_wait_for_train`, lines 69-73. -/
def claim_seat (s : station) : station :=
  { numnerOfEmptySeats := s.numnerOfEmptySeats - 1
    numnerOfWaitingPassengers := s.numnerOfWaitingPassengers - 1
    numnerOfPassengersWalkingOnTheTrain := s.numnerOfPassengersWalkingOnTheTrain + 1 }

/-- One evaluation of the `while` loop of `station_wait_for_train`, lines 62-76,
with the mutex held: sleep while there is no seat, otherwise claim one, unlock
and return. -/
def station_wait_for_train_loop (s : station) : Section :=
  if s.numnerOfEmptySeats = 0 then
    { st := s, exit := Exit.blocked, broadcastArrived := false, signalSeated := false }
  else
    { st := claim_seat s, exit := Exit.returned,
      broadcastArrived := false, signalSeated := false }

/-- `station_wait_for_train` from `pthread_mutex_lock` (line 55) to its first
`pthread_cond_wait` or to its return. -/
def station_wait_for_train_enter (s : station) : Section :=
  station_wait_for_train_loop
    { s with numnerOfWaitingPassengers := s.numnerOfWaitingPassengers + 1 }

/-- `station_wait_for_train` from the return of `pthread_cond_wait` (line 65) to
the next `pthread_cond_wait` or to its return. -/
def station_wait_for_train_wake (s : station) : Section :=
  station_wait_for_train_loop s

/-- The `if` test of `station_on_board`, lines 94-95. -/
def on_board_test (s : station) : Bool :=
  decide (s.numnerOfPassengersWalkingOnTheTrain = 0) &&
    (decide (s.numnerOfEmptySeats = 0) || decide (s.numnerOfWaitingPassengers = 0))

/-- `station_on_board`, lines 80-102: a single section that never sleeps. -/
def station_on_board (s : station) : Section :=
  let s1 := { s with
    numnerOfPassengersWalkingOnTheTrain := s.numnerOfPassengersWalkingOnTheTrain - 1 }
  { st := s1, exit := Exit.returned, broadcastArrived := false,
    signalSeated := on_board_test s1 }

/-! ## Interleaving model -/

/-- Program counter of a passenger thread, which runs `station_wait_for_train`
and then `station_on_board` once. -/
inductive PC where
  | idle      -- has not called `station_wait_for_train` yet
  | blocked   -- sleeping in the `pthread_cond_wait` of `station_wait_for_train`
  | boarding  -- `station_wait_for_train` has returned, `station_on_board` not yet called
  | seated    -- `station_on_board` has returned
deriving DecidableEq, Repr

/-- Bookkeeping for one `station_load_train` call (not part of the C state): the
capacity it offered, the passengers that were waiting at some point of the call
(those waiting at arrival plus those that entered `station_wait_for_train`
since), and the passengers whose `station_wait_for_train` completed during it. -/
structure TrainCall where
  capacity : Int
  seen : Int
  served : Int
deriving DecidableEq, Repr

/-- State of the whole system between two sections (mutex free). -/
structure Sys where
  st : station
  pcs : List PC
  train : Option TrainCall
  departed : List TrainCall
deriving DecidableEq, Repr

/-- The steps threads can take; each runs one lock-protected section. -/
inductive Step where
  | load_train (count : Int)
  | train_wake
  | wait_for_train (i : Nat)
  | passenger_wake (i : Nat)
  | on_board (i : Nat)
deriving DecidableEq, Repr

/-- Bookkeeping when a passenger enters `station_wait_for_train` during a call. -/
def TrainCall.noteEntered (c : TrainCall) : TrainCall :=
  { c with seen := c.seen + 1 }

/-- Bookkeeping when a passenger's `station_wait_for_train` completes during a call. -/
def TrainCall.noteServed (c : TrainCall) : TrainCall :=
  { c with served := c.served + 1 }

/-- One step of the system, `none` when the step is not enabled.  Trains are
never concurrent (`load_train` needs no call in progress), a passenger calls
`station_wait_for_train` once, and calls `station_on_board` only after its own
`station_wait_for_train` has returned. -/
def step (s : Sys) : Step → Option Sys
  | Step.load_train count =>
    match s.train with
    | some _ => none
    | none =>
      let r := station_load_train_enter s.st count
      let call : TrainCall :=
        { capacity := count, seen := s.st.numnerOfWaitingPassengers, served := 0 }
      match r.exit with
      | Exit.blocked => some { s with st := r.st, train := some call }
      | Exit.returned => some { s with st := r.st, departed := s.departed ++ [call] }
  | Step.train_wake =>
    match s.train with
    | none => none
    | some call =>
      let r := station_load_train_wake s.st
      match r.exit with
      | Exit.blocked => some { s with st := r.st }
      | Exit.returned =>
        some { s with st := r.st, train := none, departed := s.departed ++ [call] }
  | Step.wait_for_train i =>
    if s.pcs[i]? = some PC.idle then
      let r := station_wait_for_train_enter s.st
      match r.exit with
      | Exit.blocked =>
        some { s with st := r.st, pcs := s.pcs.set i PC.blocked,
                      train := s.train.map TrainCall.noteEntered }
      | Exit.returned =>
        some { s with st := r.st, pcs := s.pcs.set i PC.boarding,
                      train := s.train.map (fun c => c.noteEntered.noteServed) }
    else none
  | Step.passenger_wake i =>
    if s.pcs[i]? = some PC.blocked then
      let r := station_wait_for_train_wake s.st
      match r.exit with
      | Exit.blocked => some { s with st := r.st }
      | Exit.returned =>
        some { s with st := r.st, pcs := s.pcs.set i PC.boarding,
                      train := s.train.map TrainCall.noteServed }
    else none
  | Step.on_board i =>
    if s.pcs[i]? = some PC.boarding then
      some { s with st := (station_on_board s.st).st, pcs := s.pcs.set i PC.seated }
    else none

/-- Run a schedule; `none` if some step of it is not enabled. -/
def run (s : Sys) : List Step → Option Sys
  | [] => some s
  | a :: rest => (step s a).bind (fun s1 => run s1 rest)

/-- A step offers a non-negative capacity (always true of passenger steps). -/
def Step.capOk : Step → Bool
  | Step.load_train count => decide (0 ≤ count)
  | _ => true

/-- The capacities of the `station_load_train` calls of a schedule, in order. -/
def capacities : List Step → List Int
  | [] => []
  | Step.load_train count :: rest => count :: capacities rest
  | Step.train_wake :: rest => capacities rest
  | Step.wait_for_train _ :: rest => capacities rest
  | Step.passenger_wake _ :: rest => capacities rest
  | Step.on_board _ :: rest => capacities rest

/-- The system right after `station_init`, with `n` passenger threads that have
not started yet and no train. -/
def init (n : Nat) : Sys :=
  { st := station_init ⟨0, 0, 0⟩
    pcs := List.replicate n PC.idle
    train := none
    departed := [] }

/-- Number of passenger threads at a given program counter. -/
def Sys.num (s : Sys) (pc : PC) : Int := (s.pcs.count pc : Nat)

/-- Passengers served by all trains so far: by the departed ones and by the call
in progress, if any. -/
def Sys.servedTotal (s : Sys) : Int :=
  (s.departed.map TrainCall.served).sum +
    (match s.train with
     | some c => c.served
     | none => 0)

/-! ### The same steps without the restriction to sequential trains -/

/-- State of the system when `station_load_train` calls may overlap: the
counters, the passengers, and the number of train threads asleep in the
`pthread_cond_wait` of `station_load_train`. -/
structure FreeSys where
  st : station
  pcs : List PC
  trainsAsleep : Nat
deriving DecidableEq, Repr

/-- One step when trains may overlap: `load_train` is always enabled, a train
wake-up needs a sleeping train, passengers behave as in `step`. -/
def freeStep (s : FreeSys) : Step → Option FreeSys
  | Step.load_train count =>
    let r := station_load_train_enter s.st count
    match r.exit with
    | Exit.blocked => some { s with st := r.st, trainsAsleep := s.trainsAsleep + 1 }
    | Exit.returned => some { s with st := r.st }
  | Step.train_wake =>
    if s.trainsAsleep = 0 then none
    else
      let r := station_load_train_wake s.st
      match r.exit with
      | Exit.blocked => some { s with st := r.st }
      | Exit.returned => some { s with st := r.st, trainsAsleep := s.trainsAsleep - 1 }
  | Step.wait_for_train i =>
    if s.pcs[i]? = some PC.idle then
      let r := station_wait_for_train_enter s.st
      match r.exit with
      | Exit.blocked => some { s with st := r.st, pcs := s.pcs.set i PC.blocked }
      | Exit.returned => some { s with st := r.st, pcs := s.pcs.set i PC.boarding }
    else none
  | Step.passenger_wake i =>
    if s.pcs[i]? = some PC.blocked then
      let r := station_wait_for_train_wake s.st
      match r.exit with
      | Exit.blocked => some { s with st := r.st }
      | Exit.returned => some { s with st := r.st, pcs := s.pcs.set i PC.boarding }
    else none
  | Step.on_board i =>
    if s.pcs[i]? = some PC.boarding then
      some { s with st := (station_on_board s.st).st, pcs := s.pcs.set i PC.seated }
    else none

/-- Run a schedule in which trains may overlap. -/
def freeRun (s : FreeSys) : List Step → Option FreeSys
  | [] => some s
  | a :: rest => (freeStep s a).bind (fun s1 => freeRun s1 rest)

/-- The system right after `station_init`, trains allowed to overlap. -/
def freeInit (n : Nat) : FreeSys :=
  { st := station_init ⟨0, 0, 0⟩
    pcs := List.replicate n PC.idle
    trainsAsleep := 0 }

/-- Forget the bookkeeping of the sequential model. -/
def Sys.forget (s : Sys) : FreeSys :=
  { st := s.st
    pcs := s.pcs
    trainsAsleep := if s.train.isSome then 1 else 0 }

/-- Invariant of the counters when trains may overlap. -/
structure FreeInv (s : FreeSys) : Prop where
  waiting : s.st.numnerOfWaitingPassengers = (s.pcs.count PC.blocked : Nat)
  walking : s.st.numnerOfPassengersWalkingOnTheTrain = (s.pcs.count PC.boarding : Nat)
  seats : 0 ≤ s.st.numnerOfEmptySeats

/-- Two trains overlap: the second `station_load_train` is called while the
first sleeps; passenger 2 arrives while both are in the station. -/
def scenarioOverlap : List Step :=
  [Step.wait_for_train 0, Step.wait_for_train 1, Step.load_train 1, Step.load_train 3,
   Step.passenger_wake 1, Step.wait_for_train 2, Step.train_wake, Step.on_board 1]

/-- State reached by `scenarioOverlap` from `freeInit 3`. -/
def scenarioOverlapEnd : FreeSys :=
  { st := { numnerOfEmptySeats := 1, numnerOfWaitingPassengers := 1,
            numnerOfPassengersWalkingOnTheTrain := 1 }
    pcs := [PC.blocked, PC.seated, PC.boarding]
    trainsAsleep := 2 }

/-- Number of passenger threads that have entered `station_wait_for_train`. -/
def Sys.entered (s : Sys) : Int := (s.pcs.countP (fun pc => pc != PC.idle) : Nat)

/-- The closed scenario: `n` passenger threads, all sleeping in
`station_wait_for_train`, no train, no seat; no passenger can arrive later
because no thread is left at `PC.idle`. -/
def closed (n : Nat) : Sys :=
  { st := { numnerOfEmptySeats := 0, numnerOfWaitingPassengers := n,
            numnerOfPassengersWalkingOnTheTrain := 0 }
    pcs := List.replicate n PC.blocked
    train := none
    departed := [] }

/-- The schedule in which passengers `k, k+1, .., k+m-1` call
`station_wait_for_train` one after the other. -/
def arrivalsFrom (k : Nat) : Nat → List Step
  | 0 => []
  | m + 1 => Step.wait_for_train k :: arrivalsFrom (k + 1) m

/-- All `n` passengers call `station_wait_for_train`, in order. -/
def arrivals (n : Nat) : List Step := arrivalsFrom 0 n

/-- Invariant of the interleaving model, true right after `station_init` and
kept by every step that offers a non-negative capacity. -/
structure Inv (s : Sys) : Prop where
  waiting : s.st.numnerOfWaitingPassengers = s.num PC.blocked
  walking : s.st.numnerOfPassengersWalkingOnTheTrain = s.num PC.boarding
  seats : 0 ≤ s.st.numnerOfEmptySeats
  idleTrain : s.train = none →
    s.st.numnerOfEmptySeats = 0 ∧ s.st.numnerOfPassengersWalkingOnTheTrain = 0
  inCall : ∀ c, s.train = some c →
    0 ≤ c.capacity ∧ c.served + s.st.numnerOfEmptySeats = c.capacity ∧
      c.seen = s.st.numnerOfWaitingPassengers + c.served
  log : ∀ c ∈ s.departed, 0 ≤ c.capacity ∧ c.served = min c.capacity c.seen
  total : s.servedTotal = s.num PC.boarding + s.num PC.seated

/-- Scenario A: five passengers wait, a train with two seats arrives; passengers
0 and 3 get the seats, passenger 1 is woken too late and sleeps again. -/
def scenarioA : List Step :=
  [Step.wait_for_train 0, Step.wait_for_train 1, Step.wait_for_train 2,
   Step.wait_for_train 3, Step.wait_for_train 4,
   Step.load_train 2, Step.passenger_wake 0, Step.passenger_wake 3, Step.passenger_wake 1,
   Step.on_board 0, Step.train_wake, Step.on_board 3, Step.train_wake]

/-- Scenario A stopped while passenger 3 is still walking to its seat. -/
def scenarioAMid : List Step :=
  [Step.wait_for_train 0, Step.wait_for_train 1, Step.wait_for_train 2,
   Step.wait_for_train 3, Step.wait_for_train 4,
   Step.load_train 2, Step.passenger_wake 0, Step.passenger_wake 3, Step.passenger_wake 1,
   Step.on_board 0, Step.train_wake]

/-- Scenario C: two passengers wait, two trains with one seat each arrive one
after the other. -/
def scenarioC : List Step :=
  [Step.load_train 1, Step.passenger_wake 1, Step.on_board 1, Step.train_wake,
   Step.load_train 1, Step.passenger_wake 0, Step.on_board 0, Step.train_wake]

/-- State reached by `scenarioA` from `init 5`. -/
def scenarioAEnd : Sys :=
  { st := { numnerOfEmptySeats := 0, numnerOfWaitingPassengers := 3,
            numnerOfPassengersWalkingOnTheTrain := 0 }
    pcs := [PC.seated, PC.blocked, PC.blocked, PC.seated, PC.blocked]
    train := none
    departed := [{ capacity := 2, seen := 5, served := 2 }] }

/-- State reached by `scenarioAMid` from `init 5`. -/
def scenarioAMidEnd : Sys :=
  { st := { numnerOfEmptySeats := 0, numnerOfWaitingPassengers := 3,
            numnerOfPassengersWalkingOnTheTrain := 1 }
    pcs := [PC.seated, PC.blocked, PC.blocked, PC.boarding, PC.blocked]
    train := some { capacity := 2, seen := 5, served := 2 }
    departed := [] }

/-- State reached by `scenarioC` from `closed 2`. -/
def scenarioCEnd : Sys :=
  { st := { numnerOfEmptySeats := 0, numnerOfWaitingPassengers := 0,
            numnerOfPassengersWalkingOnTheTrain := 0 }
    pcs := [PC.seated, PC.seated]
    train := none
    departed := [{ capacity := 1, seen := 2, served := 1 },
                 { capacity := 1, seen := 1, served := 1 }] }

/-- Scenario A up to the moment both passengers are seated, just before the
train is woken for the last time. -/
def scenarioASeated : List Step :=
  [Step.wait_for_train 0, Step.wait_for_train 1, Step.wait_for_train 2,
   Step.wait_for_train 3, Step.wait_for_train 4,
   Step.load_train 2, Step.passenger_wake 0, Step.passenger_wake 3, Step.passenger_wake 1,
   Step.on_board 0, Step.train_wake, Step.on_board 3]

/-- State reached by `scenarioASeated` from `init 5`. -/
def scenarioASeatedEnd : Sys :=
  { st := { numnerOfEmptySeats := 0, numnerOfWaitingPassengers := 3,
            numnerOfPassengersWalkingOnTheTrain := 0 }
    pcs := [PC.seated, PC.blocked, PC.blocked, PC.seated, PC.blocked]
    train := some { capacity := 2, seen := 5, served := 2 }
    departed := [] }

/-- Scenario C from `station_init`: both passengers arrive, then the two trains. -/
def scenarioCFull : List Step :=
  [Step.wait_for_train 0, Step.wait_for_train 1] ++ scenarioC

/-- The departure condition in the words of the specification (§4.2 step 4):
`boarding_in_progress == 0 AND (empty_seats == 0 OR waiting_passengers == 0)`. -/
def specDepartureCondition (s : station) : Prop :=
  s.numnerOfPassengersWalkingOnTheTrain = 0 ∧
    (s.numnerOfEmptySeats = 0 ∨ s.numnerOfWaitingPassengers = 0)

/-- One passenger waits, a train with two seats arrives and the passenger claims
one of them. -/
def scenarioSeatLeft : List Step :=
  [Step.wait_for_train 0, Step.load_train 2, Step.passenger_wake 0]

/-- State reached by `scenarioSeatLeft` from `init 1`. -/
def scenarioSeatLeftEnd : Sys :=
  { st := { numnerOfEmptySeats := 1, numnerOfWaitingPassengers := 0,
            numnerOfPassengersWalkingOnTheTrain := 1 }
    pcs := [PC.boarding]
    train := some { capacity := 2, seen := 1, served := 1 }
    departed := [] }

/-! ### Wake-ups by broadcast and signal only -/

/-- Indices of the passengers asleep in `station_wait_for_train`: the threads a
`pthread_cond_broadcast(&train_arrived)` unblocks. -/
def blockedIndices (pcs : List PC) : List Nat :=
  (List.range pcs.length).filter (fun i => decide (pcs[i]? = some PC.blocked))

/-- The system with its wake-ups made explicit: `woken` lists the sleeping
passengers that a broadcast has unblocked and that have not run since,
`trainWoken` says whether the sleeping `station_load_train` call has been
signalled, and `pending` holds the capacities of the trains still to arrive. -/
structure LiveSys where
  base : Sys
  woken : List Nat
  trainWoken : Bool
  pending : List Int
deriving DecidableEq, Repr

/-- One step when a sleeping thread runs only after it has been woken by
`pthread_cond_broadcast` or `pthread_cond_signal` (no spurious wake-up), and the
trains arrive in the order of `pending`.  The counters and program counters
change as in `step`. -/
def liveStep (s : LiveSys) (a : Step) : Option LiveSys :=
  match a with
  | Step.load_train count =>
    if s.pending.head? = some count then
      (step s.base a).map (fun b =>
        { base := b
          woken :=
            if (station_load_train_enter s.base.st count).broadcastArrived then
              blockedIndices s.base.pcs
            else s.woken
          trainWoken := false
          pending := s.pending.tail })
    else none
  | Step.train_wake =>
    if s.trainWoken then
      (step s.base a).map (fun b => { s with base := b, trainWoken := false })
    else none
  | Step.wait_for_train _ =>
    (step s.base a).map (fun b => { s with base := b })
  | Step.passenger_wake i =>
    if i ∈ s.woken then
      (step s.base a).map (fun b =>
        { s with base := b, woken := s.woken.filter (fun j => decide (j ≠ i)) })
    else none
  | Step.on_board _ =>
    (step s.base a).map (fun b =>
      { s with base := b
               trainWoken := s.trainWoken || (station_on_board s.base.st).signalSeated })

/-- Run a schedule with explicit wake-ups. -/
def liveRun (s : LiveSys) : List Step → Option LiveSys
  | [] => some s
  | a :: rest => (liveStep s a).bind (fun s1 => liveRun s1 rest)

/-- Right after `station_init`: `n` passenger threads not started yet, trains of
capacities `caps` still to arrive. -/
def liveInit (n : Nat) (caps : List Int) : LiveSys :=
  { base := init n, woken := [], trainWoken := false, pending := caps }

/-- Invariant of the system with explicit wake-ups: no wake-up is lost. -/
structure LiveInv (s : LiveSys) : Prop where
  base : Inv s.base
  seatsWoken : s.base.st.numnerOfEmptySeats ≠ 0 →
    ∀ i : Nat, s.base.pcs[i]? = some PC.blocked → i ∈ s.woken
  trainSignalled : s.base.train ≠ none →
    s.trainWoken = true ∨ load_train_guard s.base.st = true
  pendingOk : ∀ c ∈ s.pending, 0 ≤ c

/-- All `n` passengers sleep in `station_wait_for_train`, no wake-up is pending,
trains of capacities `caps` still to arrive. -/
def liveClosed (n : Nat) (caps : List Int) : LiveSys :=
  { base := closed n, woken := [], trainWoken := false, pending := caps }

/-- State reached from `liveInit 5 [2]` when five passengers have gone to sleep. -/
def scenarioFiveAsleep : LiveSys := liveClosed 5 [2]

/-- State after the train with two seats has arrived at `scenarioFiveAsleep`:
all five sleeping passengers have been woken by its broadcast. -/
def scenarioFiveWoken : LiveSys :=
  { base :=
      { st := { numnerOfEmptySeats := 2, numnerOfWaitingPassengers := 5,
                numnerOfPassengersWalkingOnTheTrain := 0 }
        pcs := [PC.blocked, PC.blocked, PC.blocked, PC.blocked, PC.blocked]
        train := some { capacity := 2, seen := 5, served := 0 }
        departed := [] }
    woken := [0, 1, 2, 3, 4]
    trainWoken := false
    pending := [] }

end Caltrain

/-! # Matrix multiplication workers (`labs/threads/threads.c`)

`Matrix` keeps its dimensions and a list of rows.  An access `data[i][j]`
outside the allocated storage is undefined in C and is `none` here.  `int`
arithmetic is 32-bit two's complement: C leaves signed overflow undefined, the
model wraps as the usual targets do. -/

namespace Threads

/-- The value of a mathematical integer as a 32-bit two's complement `int`. -/
def wrapInt (x : Int) : Int := (x + 2147483648) % 4294967296 - 2147483648

/-- `Matrix` of `threads.c`, lines 13-17. -/
structure Matrix where
  rows : Int
  cols : Int
  data : List (List Int)
deriving DecidableEq, Repr

/-- Read `m->data[i][j]`. -/
def Matrix.get? (m : Matrix) (i j : Nat) : Option Int :=
  (m.data[i]?).bind (fun row => row[j]?)

/-- Write `m->data[i][j] = v`. -/
def Matrix.set? (m : Matrix) (i j : Nat) (v : Int) : Option Matrix :=
  match m.data[i]? with
  | none => none
  | some row =>
    if j < row.length then some { m with data := m.data.set i (row.set j v) } else none

/-- The loop `for (k ..; k < A->cols; k++) sum += A->data[i][k] * B->data[k][j]`
(lines 199-202, 223-226, 245-248) with `fuel` iterations left, at index `k`. -/
def dotLoop (A B : Matrix) (i j : Nat) : Nat → Nat → Int → Option Int
  | 0, _, sum => some sum
  | fuel + 1, k, sum =>
    match A.get? i k, B.get? k j with
    | some a, some b => dotLoop A B i j fuel (k + 1) (wrapInt (sum + wrapInt (a * b)))
    | _, _ => none

/-- `int sum = 0;` followed by the `k` loop. -/
def dot (A B : Matrix) (i j : Nat) : Option Int :=
  dotLoop A B i j A.cols.toNat 0 0

/-- `multiply_element`, lines 234-253: one cell of the result. -/
def multiply_element (A B C : Matrix) (i j : Nat) : Option Matrix :=
  match dot A B i j with
  | none => none
  | some sum => C.set? i j sum

/-- The `j` loop of `multiply_row`, lines 220-228, with `fuel` iterations left. -/
def rowLoop (A B : Matrix) (i : Nat) : Nat → Nat → Matrix → Option Matrix
  | 0, _, C => some C
  | fuel + 1, j, C =>
    match dot A B i j with
    | none => none
    | some sum =>
      match C.set? i j sum with
      | none => none
      | some C1 => rowLoop A B i fuel (j + 1) C1

/-- `multiply_row`, lines 211-231: one row of the result. -/
def multiply_row (A B C : Matrix) (i : Nat) : Option Matrix :=
  rowLoop A B i B.cols.toNat 0 C

/-- The `j` loop of `multiply_matrix`, lines 196-204, with `fuel` iterations left. -/
def matrixColLoop (A B : Matrix) (i : Nat) : Nat → Nat → Matrix → Option Matrix
  | 0, _, C => some C
  | fuel + 1, j, C =>
    match dot A B i j with
    | none => none
    | some sum =>
      match C.set? i j sum with
      | none => none
      | some C1 => matrixColLoop A B i fuel (j + 1) C1

/-- The `i` loop of `multiply_matrix`, lines 193-205, with `fuel` iterations left. -/
def matrixRowLoop (A B : Matrix) : Nat → Nat → Matrix → Option Matrix
  | 0, _, C => some C
  | fuel + 1, i, C =>
    match matrixColLoop A B i B.cols.toNat 0 C with
    | none => none
    | some C1 => matrixRowLoop A B fuel (i + 1) C1

/-- `multiply_matrix`, lines 185-208: the whole result in one thread. -/
def multiply_matrix (A B C : Matrix) : Option Matrix :=
  matrixRowLoop A B A.rows.toNat 0 C

/-- The row workers run to completion one after the other in the given order
(each worker writes only its own row and reads only `A` and `B`). -/
def runRows (A B : Matrix) : List Nat → Matrix → Option Matrix
  | [], C => some C
  | i :: rest, C =>
    match multiply_row A B C i with
    | none => none
    | some C1 => runRows A B rest C1

/-- The element workers run to completion one after the other in the given
order (each worker writes only its own cell and reads only `A` and `B`). -/
def runElements (A B : Matrix) : List (Nat × Nat) → Matrix → Option Matrix
  | [], C => some C
  | ij :: rest, C =>
    match multiply_element A B C ij.1 ij.2 with
    | none => none
    | some C1 => runElements A B rest C1

/-- The storage of `m` has `r` rows of `c` cells each. -/
def Sized (m : Matrix) (r c : Nat) : Prop :=
  m.data.length = r ∧ ∀ row ∈ m.data, row.length = c

/-- The cell `(i, j)` of `m`, 0 outside its storage. -/
def Matrix.cell (m : Matrix) (i j : Nat) : Int := (m.get? i j).getD 0

/-- The mathematical value of cell `(i, j)` of the product: the sum over `k < n`
of `A[i][k] * B[k][j]`, as an `int`. -/
def specCell (A B : Matrix) (n i j : Nat) : Int :=
  wrapInt ((List.range n).map (fun k => A.cell i k * B.cell k j)).sum

/-- The result matrix: `C` with every cell `(i, j)`, `i < r`, `j < c`, holding
`specCell A B n i j`. -/
def product (A B C : Matrix) (r n c : Nat) : Matrix :=
  { C with data := (List.range r).map (fun i => (List.range c).map (specCell A B n i)) }

/-- `C'` has the shape and header of `C`, holds `f i j` in the cells selected by
`S` and what `C` held in the others. -/
def Fills (f : Nat → Nat → Int) (r c : Nat) (S : Nat → Nat → Prop) (C C' : Matrix) : Prop :=
  Sized C' r c ∧ C'.rows = C.rows ∧ C'.cols = C.cols ∧
    ∀ i j, (S i j → C'.cell i j = f i j) ∧ (¬ S i j → C'.cell i j = C.cell i j)

/-- A 2 x 3 example matrix. -/
def exampleA : Matrix := { rows := 2, cols := 3, data := [[1, 2, 3], [4, 5, 6]] }

/-- A 3 x 2 example matrix. -/
def exampleB : Matrix := { rows := 3, cols := 2, data := [[7, 8], [9, 10], [11, 12]] }

/-- Result storage for `exampleA * exampleB`, zeroed as by `create_matrix`. -/
def exampleC : Matrix := { rows := 2, cols := 2, data := [[0, 0], [0, 0]] }

/-- The product of `exampleA` and `exampleB`. -/
def exampleAB : Matrix := { rows := 2, cols := 2, data := [[58, 64], [139, 154]] }

end Threads

/-! # Command line parser of the shell (`labs/Shell_Implementation/MYSHELL.c`)

The input line is the list of the characters of the C string before its
terminating NUL; a token is the list of characters `strndup`/`strdup` copies.
`malloc`, `strndup` and `strdup` are taken to succeed. -/

namespace Shell

/-- `MAX_ARGS`, line 14. -/
def MAX_ARGS : Nat := 100

/-- `isspace` in the C locale: space, `\t`, `\n`, `\v`, `\f`, `\r`. -/
def isspace (c : Char) : Bool :=
  c = ' ' || c = '\t' || c = '\n' || c = '\x0b' || c = '\x0c' || c = '\r'

/-- The string `"&"` that `strcmp` compares the last token with, line 227. -/
def ampersand : List Char := ['&']

/-- One pass of lines 204-224 from position `p`: skip the leading spaces; at the
end of the line there is no token (`break`, line 205); otherwise read a quoted
token (up to the closing quote, or the rest of the line when the quote is not
closed) or an unquoted one (up to the next space).  Returns the token and the
position after it. -/
def readToken (p : List Char) : Option (List Char × List Char) :=
  match p.dropWhile isspace with
  | [] => none
  | c :: rest =>
    if c = '"' then
      match rest.dropWhile (fun d => d != '"') with
      | [] => some (rest, [])
      | _ :: after => some (rest.takeWhile (fun d => d != '"'), after)
    else
      some ((c :: rest).takeWhile (fun d => !isspace d),
            (c :: rest).dropWhile (fun d => !isspace d))

/-- What `parse_input` hands back: the slots `args[0..i]` it has written, `none`
for `NULL`, and the value of `*is_background`. -/
structure Parsed where
  slots : List (Option (List Char))
  is_background : Int
deriving DecidableEq, Repr

/-- The `while` loop of `parse_input`, lines 202-235, with `fuel = MAX_ARGS - 1 - i`
iterations allowed by the test `i < MAX_ARGS - 1`; `acc` holds `args[0..i-1]`.
A token equal to `"&"` sets `*is_background`, is replaced by `NULL` and ends the
loop with `i` already incremented, so that line 235 writes a second `NULL`. -/
def parseLoop : Nat → List Char → List (List Char) → Int → Parsed
  | 0, _, acc, bg => { slots := acc.map some ++ [none], is_background := bg }
  | fuel + 1, p, acc, bg =>
    if p = [] then { slots := acc.map some ++ [none], is_background := bg }
    else
      match readToken p with
      | none => { slots := acc.map some ++ [none], is_background := bg }
      | some (tok, rest) =>
        if tok = ampersand then
          { slots := acc.map some ++ [none, none], is_background := 1 }
        else parseLoop fuel rest (acc ++ [tok]) bg

/-- `parse_input(input, is_background)`, lines 196-237; `bg` is the value
`*is_background` holds at the call. -/
def parse_input (input : List Char) (bg : Int) : Parsed :=
  parseLoop (MAX_ARGS - 1) input [] bg

/-- The `NULL`-terminated argument list a caller sees: the entries before the
first `NULL`. -/
def Parsed.argv (r : Parsed) : List (List Char) :=
  (r.slots.takeWhile Option.isSome).filterMap id

/-- The first `n` tokens of a line, read as lines 204-224 read them, whatever
they are. -/
def readTokens : Nat → List Char → List (List Char)
  | 0, _ => []
  | n + 1, p =>
    match readToken p with
    | none => []
    | some (tok, rest) => tok :: readTokens n rest

end Shell

namespace Caltrain

/-! ## The invariant is inductive -/

theorem count_set_int (l : List PC) (i : Nat) (old new b : PC) (h : l[i]? = some old) :
    ((l.set i new).count b : Int)
      = l.count b - (if old = b then 1 else 0) + (if new = b then 1 else 0) := by
  obtain ⟨hlt, hget⟩ := List.getElem?_eq_some_iff.mp h
  rw [List.count_set new b l i hlt, hget]
  have hpos : 1 ≤ l.count old := by
    have : old ∈ l := hget ▸ List.getElem_mem hlt
    exact List.count_pos_iff.mpr this
  by_cases h1 : old = b <;> by_cases h2 : new = b <;> simp [h1, h2] <;> (try subst h1) <;> omega

theorem init_inv (n : Nat) : Inv (init n) := by
  constructor <;> simp [init, station_init, Sys.num, Sys.servedTotal, List.count_replicate]

theorem load_train_guard_iff (s : station) :
    load_train_guard s = true ↔
      (s.numnerOfEmptySeats > 0 ∧ s.numnerOfWaitingPassengers > 0)
        ∨ s.numnerOfPassengersWalkingOnTheTrain > 0 := by
  simp [load_train_guard]

theorem sum_served_append (l : List TrainCall) (c : TrainCall) :
    ((l ++ [c]).map TrainCall.served).sum = (l.map TrainCall.served).sum + c.served := by
  simp

theorem inv_step {s s' : Sys} {a : Step} (hi : Inv s) (hc : a.capOk = true)
    (h : step s a = some s') : Inv s' := by
  obtain ⟨hW, hB, hE, hIdle, hCall, hLog, hTot⟩ := hi
  have hWn : 0 ≤ s.st.numnerOfWaitingPassengers := by rw [hW]; exact Int.natCast_nonneg _
  have hBn : 0 ≤ s.st.numnerOfPassengersWalkingOnTheTrain := by
    rw [hB]; exact Int.natCast_nonneg _
  cases a with
  | load_train count =>
    simp only [Step.capOk, decide_eq_true_eq] at hc
    cases ht : s.train with
    | some c => simp [step, ht] at h
    | none =>
      obtain ⟨hE0, hB0⟩ := hIdle ht
      simp only [Sys.servedTotal, ht] at hTot
      by_cases hg : load_train_guard { s.st with numnerOfEmptySeats := count } = true
      · simp [step, ht, station_load_train_enter, station_load_train_loop, hg] at h
        subst h
        rw [load_train_guard_iff] at hg
        refine ⟨hW, hB, hc, ?_, ?_, hLog, ?_⟩
        · intro h; simp at h
        · intro c h
          simp only [Option.some.injEq] at h
          subst h
          simp
          exact hc
        · simp only [Sys.servedTotal, Sys.num] at hTot ⊢
          omega
      · simp [step, ht, station_load_train_enter, station_load_train_loop, hg] at h
        subst h
        rw [load_train_guard_iff] at hg
        simp only at hg
        refine ⟨hW, hB, le_refl _, ?_, ?_, ?_, ?_⟩
        · intro _; exact ⟨rfl, hB0⟩
        · intro c h; simp [ht] at h
        · intro c h
          rcases List.mem_append.mp h with h | h
          · exact hLog c h
          · simp only [List.mem_singleton] at h
            subst h
            simp only
            refine ⟨hc, ?_⟩
            omega
        · simp only [Sys.servedTotal, Sys.num, ht, sum_served_append] at hTot ⊢
          omega
  | train_wake =>
    cases ht : s.train with
    | none => simp [step, ht] at h
    | some c =>
      obtain ⟨hcap, hsum, hseen⟩ := hCall c ht
      simp only [Sys.servedTotal, ht] at hTot
      by_cases hg : load_train_guard s.st = true
      · simp [step, ht, station_load_train_wake, station_load_train_loop, hg] at h
        subst h
        refine ⟨hW, hB, hE, ?_, ?_, hLog, ?_⟩
        · intro h; simp at h
        · intro c' h
          simp only [Option.some.injEq] at h
          subst h
          exact ⟨hcap, hsum, hseen⟩
        · simpa [Sys.servedTotal, Sys.num] using hTot
      · simp [step, ht, station_load_train_wake, station_load_train_loop, hg] at h
        subst h
        rw [load_train_guard_iff] at hg
        refine ⟨hW, hB, le_refl _, ?_, ?_, ?_, ?_⟩
        · intro _; exact ⟨rfl, by simp only; omega⟩
        · intro c h; simp at h
        · intro c' h
          rcases List.mem_append.mp h with h | h
          · exact hLog c' h
          · simp only [List.mem_singleton] at h
            subst h
            refine ⟨hcap, ?_⟩
            omega
        · simp only [Sys.servedTotal, Sys.num, sum_served_append] at hTot ⊢
          omega
  | wait_for_train i =>
    by_cases hp : s.pcs[i]? = some PC.idle
    · by_cases hz : s.st.numnerOfEmptySeats = 0
      · simp [step, hp, station_wait_for_train_enter, station_wait_for_train_loop,
          hz] at h
        subst h
        refine ⟨?_, ?_, ?_, ?_, ?_, hLog, ?_⟩
        · simp only [Sys.num, count_set_int s.pcs i PC.idle PC.blocked PC.blocked hp] at hW ⊢
          simp; omega
        · simp only [Sys.num, count_set_int s.pcs i PC.idle PC.blocked PC.boarding hp] at hB ⊢
          simp; omega
        · simp [hz]
        · intro h
          simp only [Option.map_eq_none'] at h
          exact ⟨rfl, (hIdle h).2⟩
        · intro c h
          cases ht : s.train with
          | none => simp [ht] at h
          | some c0 =>
            simp only [ht, Option.map_some', Option.some.injEq] at h
            subst h
            obtain ⟨h1, h2, h3⟩ := hCall c0 ht
            simp only [TrainCall.noteEntered]
            omega
        · simp only [Sys.servedTotal, Sys.num,
            count_set_int s.pcs i PC.idle PC.blocked PC.boarding hp,
            count_set_int s.pcs i PC.idle PC.blocked PC.seated hp] at hTot ⊢
          cases ht : s.train with
          | none => simp [ht] at hTot ⊢; omega
          | some c0 => simp [ht, TrainCall.noteEntered] at hTot ⊢; omega
      · simp [step, hp, station_wait_for_train_enter, station_wait_for_train_loop,
          hz, claim_seat] at h
        subst h
        cases ht : s.train with
        | none => exact absurd (hIdle ht).1 hz
        | some c0 =>
          obtain ⟨h1, h2, h3⟩ := hCall c0 ht
          refine ⟨?_, ?_, ?_, ?_, ?_, hLog, ?_⟩
          · simp only [Sys.num, count_set_int s.pcs i PC.idle PC.boarding PC.blocked hp] at hW ⊢
            simp; omega
          · simp only [Sys.num, count_set_int s.pcs i PC.idle PC.boarding PC.boarding hp] at hB ⊢
            simp; omega
          · simp only; omega
          · intro h; simp at h
          · intro c h
            simp only [Option.map_some', Option.some.injEq] at h
            subst h
            simp only [TrainCall.noteEntered, TrainCall.noteServed]
            omega
          · simp only [Sys.servedTotal, Sys.num,
              count_set_int s.pcs i PC.idle PC.boarding PC.boarding hp,
              count_set_int s.pcs i PC.idle PC.boarding PC.seated hp] at hTot ⊢
            simp [ht, TrainCall.noteEntered, TrainCall.noteServed] at hTot ⊢; omega
    · simp [step, hp] at h
  | passenger_wake i =>
    by_cases hp : s.pcs[i]? = some PC.blocked
    · by_cases hz : s.st.numnerOfEmptySeats = 0
      · simp [step, hp, station_wait_for_train_wake, station_wait_for_train_loop,
          hz] at h
        subst h
        refine ⟨hW, hB, by simp [hz], ?_, ?_, hLog, ?_⟩
        · intro h; exact hIdle h
        · intro c h
          obtain ⟨h1, h2, h3⟩ := hCall c h
          simp only
          omega
        · simpa [Sys.servedTotal, Sys.num] using hTot
      · simp [step, hp, station_wait_for_train_wake, station_wait_for_train_loop,
          hz, claim_seat] at h
        subst h
        cases ht : s.train with
        | none => exact absurd (hIdle ht).1 hz
        | some c0 =>
          obtain ⟨h1, h2, h3⟩ := hCall c0 ht
          refine ⟨?_, ?_, ?_, ?_, ?_, hLog, ?_⟩
          · simp only [Sys.num, count_set_int s.pcs i PC.blocked PC.boarding PC.blocked hp]
              at hW ⊢
            simp; omega
          · simp only [Sys.num, count_set_int s.pcs i PC.blocked PC.boarding PC.boarding hp]
              at hB ⊢
            simp; omega
          · simp only; omega
          · intro h; simp at h
          · intro c h
            simp only [Option.map_some', Option.some.injEq] at h
            subst h
            simp only [TrainCall.noteServed]
            omega
          · simp only [Sys.servedTotal, Sys.num,
              count_set_int s.pcs i PC.blocked PC.boarding PC.boarding hp,
              count_set_int s.pcs i PC.blocked PC.boarding PC.seated hp] at hTot ⊢
            simp [ht, TrainCall.noteServed] at hTot ⊢; omega
    · simp [step, hp] at h
  | on_board i =>
    by_cases hp : s.pcs[i]? = some PC.boarding
    · simp [step, hp, station_on_board] at h
      subst h
      have hpos : 1 ≤ s.st.numnerOfPassengersWalkingOnTheTrain := by
        have := count_set_int s.pcs i PC.boarding PC.seated PC.boarding hp
        simp only [Sys.num] at hB
        simp at this
        omega
      refine ⟨?_, ?_, hE, ?_, ?_, hLog, ?_⟩
      · simp only [Sys.num, count_set_int s.pcs i PC.boarding PC.seated PC.blocked hp] at hW ⊢
        simp; omega
      · simp only [Sys.num, count_set_int s.pcs i PC.boarding PC.seated PC.boarding hp] at hB ⊢
        simp; omega
      · intro h
        have := (hIdle h).2
        omega
      · intro c h
        exact hCall c h
      · simp only [Sys.servedTotal, Sys.num,
          count_set_int s.pcs i PC.boarding PC.seated PC.boarding hp,
          count_set_int s.pcs i PC.boarding PC.seated PC.seated hp] at hTot ⊢
        simp at hTot ⊢; omega
    · simp [step, hp] at h

theorem inv_run {steps : List Step} : ∀ {s s' : Sys}, Inv s →
    (∀ a ∈ steps, a.capOk = true) → run s steps = some s' → Inv s' := by
  induction steps with
  | nil =>
    intro s s' hi _ h
    simp only [run, Option.some.injEq] at h
    exact h ▸ hi
  | cons a rest ih =>
    intro s s' hi hc h
    simp only [run] at h
    cases hs : step s a with
    | none => simp [hs] at h
    | some s1 =>
      simp only [hs, Option.some_bind] at h
      exact ih (inv_step hi (hc a (List.mem_cons_self _ _)) hs)
        (fun b hb => hc b (List.mem_cons_of_mem _ hb)) h

theorem reachable_inv {n : Nat} {steps : List Step} {s : Sys}
    (hc : ∀ a ∈ steps, a.capOk = true) (h : run (init n) steps = some s) : Inv s :=
  inv_run (init_inv n) hc h


/-! ## Overlapping trains -/

theorem freeInit_inv (n : Nat) : FreeInv (freeInit n) := by
  constructor <;> simp [freeInit, station_init, List.count_replicate]

theorem freeInv_step {s s' : FreeSys} {a : Step} (hi : FreeInv s) (hc : a.capOk = true)
    (h : freeStep s a = some s') : FreeInv s' := by
  obtain ⟨hW, hB, hE⟩ := hi
  cases a with
  | load_train count =>
    simp only [Step.capOk, decide_eq_true_eq] at hc
    by_cases hg : load_train_guard { s.st with numnerOfEmptySeats := count } = true
    · simp [freeStep, station_load_train_enter, station_load_train_loop, hg] at h
      subst h
      exact ⟨hW, hB, hc⟩
    · simp [freeStep, station_load_train_enter, station_load_train_loop, hg] at h
      subst h
      exact ⟨hW, hB, le_refl _⟩
  | train_wake =>
    by_cases h0 : s.trainsAsleep = 0
    · simp [freeStep, h0] at h
    · by_cases hg : load_train_guard s.st = true
      · simp [freeStep, h0, station_load_train_wake, station_load_train_loop, hg] at h
        subst h
        exact ⟨hW, hB, hE⟩
      · simp [freeStep, h0, station_load_train_wake, station_load_train_loop, hg] at h
        subst h
        exact ⟨hW, hB, le_refl _⟩
  | wait_for_train i =>
    by_cases hp : s.pcs[i]? = some PC.idle
    · by_cases hz : s.st.numnerOfEmptySeats = 0
      · simp [freeStep, hp, station_wait_for_train_enter, station_wait_for_train_loop,
          hz] at h
        subst h
        refine ⟨?_, ?_, by simp⟩
        · simp only [count_set_int s.pcs i PC.idle PC.blocked PC.blocked hp]
          simp; omega
        · simp only [count_set_int s.pcs i PC.idle PC.blocked PC.boarding hp]
          simp; omega
      · simp [freeStep, hp, station_wait_for_train_enter, station_wait_for_train_loop,
          hz, claim_seat] at h
        subst h
        refine ⟨?_, ?_, by simp only; omega⟩
        · simp only [count_set_int s.pcs i PC.idle PC.boarding PC.blocked hp]
          simp; omega
        · simp only [count_set_int s.pcs i PC.idle PC.boarding PC.boarding hp]
          simp; omega
    · simp [freeStep, hp] at h
  | passenger_wake i =>
    by_cases hp : s.pcs[i]? = some PC.blocked
    · by_cases hz : s.st.numnerOfEmptySeats = 0
      · simp [freeStep, hp, station_wait_for_train_wake, station_wait_for_train_loop,
          hz] at h
        subst h
        exact ⟨hW, hB, hE⟩
      · simp [freeStep, hp, station_wait_for_train_wake, station_wait_for_train_loop,
          hz, claim_seat] at h
        subst h
        refine ⟨?_, ?_, by simp only; omega⟩
        · simp only [count_set_int s.pcs i PC.blocked PC.boarding PC.blocked hp]
          simp; omega
        · simp only [count_set_int s.pcs i PC.blocked PC.boarding PC.boarding hp]
          simp; omega
    · simp [freeStep, hp] at h
  | on_board i =>
    by_cases hp : s.pcs[i]? = some PC.boarding
    · simp [freeStep, hp, station_on_board] at h
      subst h
      refine ⟨?_, ?_, hE⟩
      · simp only [count_set_int s.pcs i PC.boarding PC.seated PC.blocked hp]
        simp; omega
      · simp only [count_set_int s.pcs i PC.boarding PC.seated PC.boarding hp]
        simp; omega
    · simp [freeStep, hp] at h

theorem freeInv_run {steps : List Step} : ∀ {s s' : FreeSys}, FreeInv s →
    (∀ a ∈ steps, a.capOk = true) → freeRun s steps = some s' → FreeInv s' := by
  induction steps with
  | nil =>
    intro s s' hi _ h
    simp only [freeRun, Option.some.injEq] at h
    exact h ▸ hi
  | cons a rest ih =>
    intro s s' hi hc h
    simp only [freeRun] at h
    cases hs : freeStep s a with
    | none => simp [hs] at h
    | some s1 =>
      simp only [hs, Option.some_bind] at h
      exact ih (freeInv_step hi (hc a (List.mem_cons_self _ _)) hs)
        (fun b hb => hc b (List.mem_cons_of_mem _ hb)) h

/-- Every step of the model with sequential trains is a step of the model with
overlapping trains. -/
theorem step_forget {s s' : Sys} {a : Step} (h : step s a = some s') :
    freeStep s.forget a = some s'.forget := by
  cases a with
  | load_train count =>
    cases ht : s.train with
    | some c => simp [step, ht] at h
    | none =>
      simp only [step, ht] at h
      simp only [freeStep, Sys.forget, ht]
      split at h <;> rename_i he <;>
        (simp only [Option.some.injEq] at h; subst h; simp [he])
  | train_wake =>
    cases ht : s.train with
    | none => simp [step, ht] at h
    | some c =>
      simp only [step, ht] at h
      simp only [freeStep, Sys.forget, ht]
      split at h <;> rename_i he <;>
        (simp only [Option.some.injEq] at h; subst h; simp [he, ht])
  | wait_for_train i =>
    simp only [step] at h
    split at h
    · rename_i hp
      simp only [freeStep, Sys.forget, hp]
      split at h <;> rename_i he <;>
        (simp only [Option.some.injEq] at h; subst h; simp [he])
    · simp at h
  | passenger_wake i =>
    simp only [step] at h
    split at h
    · rename_i hp
      simp only [freeStep, Sys.forget, hp]
      split at h <;> rename_i he <;>
        (simp only [Option.some.injEq] at h; subst h; simp [he])
    · simp at h
  | on_board i =>
    simp only [step] at h
    split at h
    · rename_i hp
      simp only [freeStep, Sys.forget, hp]
      simp only [Option.some.injEq] at h; subst h; simp
    · simp at h

theorem run_forget {steps : List Step} : ∀ {s s' : Sys},
    run s steps = some s' → freeRun s.forget steps = some s'.forget := by
  induction steps with
  | nil =>
    intro s s' h
    simp only [run, Option.some.injEq] at h
    simp [freeRun, h]
  | cons a rest ih =>
    intro s s' h
    simp only [run] at h
    cases hs : step s a with
    | none => simp [hs] at h
    | some s1 =>
      simp only [hs, Option.some_bind] at h
      simp only [freeRun, step_forget hs, Option.some_bind, ih h]

/-- C1. Every lock-protected section is one atomic step.  In every state
reachable from `station_init` by any interleaving of these steps, overlapping
`station_load_train` calls included, in which every offered capacity is
non-negative and each passenger calls `station_on_board` only after its own
`station_wait_for_train` has returned, the three counters are non-negative. -/
theorem counters_nonneg (n : Nat) (steps : List Step) (s : FreeSys)
    (hc : ∀ a ∈ steps, a.capOk = true) (h : freeRun (freeInit n) steps = some s) :
    0 ≤ s.st.numnerOfEmptySeats ∧ 0 ≤ s.st.numnerOfWaitingPassengers ∧
      0 ≤ s.st.numnerOfPassengersWalkingOnTheTrain := by
  have hi := freeInv_run (freeInit_inv n) hc h
  refine ⟨hi.seats, ?_, ?_⟩
  · rw [hi.waiting]; exact Int.natCast_nonneg _
  · rw [hi.walking]; exact Int.natCast_nonneg _

/-- Instance: two overlapping trains and a passenger arriving while both are in
the station. -/
theorem counters_nonneg_witness :
    (∀ a ∈ scenarioOverlap, a.capOk = true) ∧
      freeRun (freeInit 3) scenarioOverlap = some scenarioOverlapEnd ∧
      (0 ≤ scenarioOverlapEnd.st.numnerOfEmptySeats ∧
        0 ≤ scenarioOverlapEnd.st.numnerOfWaitingPassengers ∧
        0 ≤ scenarioOverlapEnd.st.numnerOfPassengersWalkingOnTheTrain) :=
  ⟨by decide, by decide,
    counters_nonneg 3 scenarioOverlap scenarioOverlapEnd (by decide) (by decide)⟩

theorem load_train_loop_exit (s : station) :
    (station_load_train_loop s).exit = Exit.returned ↔
      ¬ ((s.numnerOfEmptySeats > 0 ∧ s.numnerOfWaitingPassengers > 0)
          ∨ s.numnerOfPassengersWalkingOnTheTrain > 0) := by
  rw [← load_train_guard_iff]
  unfold station_load_train_loop
  cases load_train_guard s <;> simp

/-- C2. `station_load_train` leaves its wait loop (in the section that starts at
the call, where `numnerOfEmptySeats` is `count`, or in a section that starts at a
wake-up) only in a state where no passenger is walking on the train and there
are not both an empty seat and a waiting passenger; in every other state the
section ends asleep in `pthread_cond_wait`. -/
theorem load_train_returns_only_when_settled (s : station) (count : Int) :
    ((station_load_train_enter s count).exit = Exit.returned ↔
      ¬ (s.numnerOfPassengersWalkingOnTheTrain > 0) ∧
        ¬ (count > 0 ∧ s.numnerOfWaitingPassengers > 0)) ∧
    ((station_load_train_wake s).exit = Exit.returned ↔
      ¬ (s.numnerOfPassengersWalkingOnTheTrain > 0) ∧
        ¬ (s.numnerOfEmptySeats > 0 ∧ s.numnerOfWaitingPassengers > 0)) := by
  constructor
  · have h := load_train_loop_exit { s with numnerOfEmptySeats := count }
    simp only at h
    show (station_load_train_loop { s with numnerOfEmptySeats := count }).exit
      = Exit.returned ↔ _
    rw [h]
    tauto
  · show (station_load_train_loop s).exit = Exit.returned ↔ _
    rw [load_train_loop_exit]
    tauto

theorem step_train_returns {s s' : Sys} {a : Step}
    (ha : a = Step.train_wake ∨ ∃ count, a = Step.load_train count)
    (h : step s a = some s') (hret : s'.train = none) :
    s'.pcs = s.pcs ∧ s.st.numnerOfPassengersWalkingOnTheTrain ≤ 0 ∧
      s'.st.numnerOfEmptySeats = 0 ∧
      s'.st.numnerOfWaitingPassengers = s.st.numnerOfWaitingPassengers ∧
      s'.st.numnerOfPassengersWalkingOnTheTrain = s.st.numnerOfPassengersWalkingOnTheTrain := by
  rcases ha with rfl | ⟨count, rfl⟩
  · cases ht : s.train with
    | none => simp [step, ht] at h
    | some c =>
      by_cases hg : load_train_guard s.st = true
      · simp [step, ht, station_load_train_wake, station_load_train_loop, hg] at h
        subst h
        simp at hret
      · simp [step, ht, station_load_train_wake, station_load_train_loop, hg] at h
        subst h
        rw [load_train_guard_iff] at hg
        refine ⟨rfl, ?_, rfl, rfl, rfl⟩
        omega
  · cases ht : s.train with
    | some c => simp [step, ht] at h
    | none =>
      by_cases hg : load_train_guard { s.st with numnerOfEmptySeats := count } = true
      · simp [step, ht, station_load_train_enter, station_load_train_loop, hg] at h
        subst h
        simp at hret
      · simp [step, ht, station_load_train_enter, station_load_train_loop, hg] at h
        subst h
        rw [load_train_guard_iff] at hg
        simp only at hg
        refine ⟨rfl, ?_, rfl, rfl, rfl⟩
        omega

/-- C3. In every reachable state `numnerOfPassengersWalkingOnTheTrain` is the
number of passengers whose `station_wait_for_train` has returned and who have
not called `station_on_board` yet; so whenever a section of `station_load_train`
returns, no passenger is in that position, before or after the step. -/
theorem walking_counts_boarding (n : Nat) (steps : List Step) (s : Sys)
    (hc : ∀ a ∈ steps, a.capOk = true) (h : run (init n) steps = some s) :
    s.st.numnerOfPassengersWalkingOnTheTrain = s.num PC.boarding ∧
      ∀ (a : Step) (s' : Sys), (a = Step.train_wake ∨ ∃ count, a = Step.load_train count) →
        step s a = some s' → s'.train = none →
          s.num PC.boarding = 0 ∧ s'.num PC.boarding = 0 ∧
            ∀ i : Nat, s'.pcs[i]? ≠ some PC.boarding := by
  have hi := reachable_inv hc h
  refine ⟨hi.walking, ?_⟩
  intro a s' ha hs hret
  obtain ⟨hp, hB, -, -, -⟩ := step_train_returns ha hs hret
  have h0 : s.num PC.boarding = 0 := by
    have h1 := hi.walking
    have h2 : (0 : Int) ≤ s.num PC.boarding := Int.natCast_nonneg _
    omega
  refine ⟨h0, ?_, ?_⟩
  · simpa [Sys.num, hp] using h0
  · intro i hget
    have hmem : PC.boarding ∈ s.pcs := by
      rw [← hp]; exact List.getElem?_mem hget
    have hpos := List.count_pos_iff.mpr hmem
    simp only [Sys.num] at h0
    omega

/-- Instance: scenario A at the last wake-up of the train, which returns. -/
theorem walking_counts_boarding_witness :
    (∀ a ∈ scenarioASeated, a.capOk = true) ∧
      run (init 5) scenarioASeated = some scenarioASeatedEnd ∧
      step scenarioASeatedEnd Step.train_wake = some scenarioAEnd ∧
      scenarioAEnd.train = none ∧
      scenarioASeatedEnd.st.numnerOfPassengersWalkingOnTheTrain
        = scenarioASeatedEnd.num PC.boarding ∧
      scenarioASeatedEnd.num PC.boarding = 0 ∧ scenarioAEnd.num PC.boarding = 0 :=
  have w := walking_counts_boarding 5 scenarioASeated scenarioASeatedEnd
    (by decide) (by decide)
  have w2 := w.2 Step.train_wake scenarioAEnd (Or.inl rfl) (by decide) (by decide)
  ⟨by decide, by decide, by decide, by decide, w.1, w2.1, w2.2.1⟩

/-- C4. While a `station_load_train(capacity)` call with `capacity ≥ 0` is in
progress, the passengers whose `station_wait_for_train` completed since the call
began plus `numnerOfEmptySeats` equal the capacity; so no train, in progress or
departed, serves more passengers than its capacity. -/
theorem served_plus_empty_eq_capacity (n : Nat) (steps : List Step) (s : Sys)
    (hc : ∀ a ∈ steps, a.capOk = true) (h : run (init n) steps = some s) :
    (∀ call, s.train = some call →
        call.served + s.st.numnerOfEmptySeats = call.capacity ∧
          call.served ≤ call.capacity) ∧
      (∀ call ∈ s.departed, call.served ≤ call.capacity) := by
  have hi := reachable_inv hc h
  constructor
  · intro call ht
    obtain ⟨-, h2, -⟩ := hi.inCall call ht
    have := hi.seats
    exact ⟨h2, by omega⟩
  · intro call hm
    obtain ⟨-, h2⟩ := hi.log call hm
    rw [h2]
    exact min_le_left _ _

/-- Instance: scenario A while the second passenger walks to its seat. -/
theorem served_plus_empty_eq_capacity_witness :
    (∀ a ∈ scenarioAMid, a.capOk = true) ∧
      run (init 5) scenarioAMid = some scenarioAMidEnd ∧
      scenarioAMidEnd.train = some { capacity := 2, seen := 5, served := 2 } ∧
      ((2 : Int) + scenarioAMidEnd.st.numnerOfEmptySeats = 2 ∧ (2 : Int) ≤ 2) :=
  ⟨by decide, by decide, by decide,
    (served_plus_empty_eq_capacity 5 scenarioAMid scenarioAMidEnd (by decide) (by decide)).1
      { capacity := 2, seen := 5, served := 2 } (by decide)⟩

/-- C5. Every `station_load_train(capacity)` call with `capacity ≥ 0` that has
returned served exactly `min capacity n` passengers, where `n` counts the
passengers waiting at its arrival plus those that entered
`station_wait_for_train` before it left. -/
theorem served_eq_min_capacity_seen (n : Nat) (steps : List Step) (s : Sys)
    (hc : ∀ a ∈ steps, a.capOk = true) (h : run (init n) steps = some s) :
    ∀ call ∈ s.departed, call.served = min call.capacity call.seen :=
  fun call hm => ((reachable_inv hc h).log call hm).2

/-- Instance: the train of scenario A served `min 2 5` passengers. -/
theorem served_eq_min_capacity_seen_witness :
    (∀ a ∈ scenarioA, a.capOk = true) ∧ run (init 5) scenarioA = some scenarioAEnd ∧
      ({ capacity := 2, seen := 5, served := 2 } : TrainCall) ∈ scenarioAEnd.departed ∧
      (2 : Int) = min 2 5 :=
  ⟨by decide, by decide, by decide,
    served_eq_min_capacity_seen 5 scenarioA scenarioAEnd (by decide) (by decide)
      { capacity := 2, seen := 5, served := 2 } (by decide)⟩

/-- C7. Whenever a section of `station_load_train` returns, it leaves
`numnerOfEmptySeats = 0`; and no section of `station_load_train`, returning or
going to sleep, changes `numnerOfWaitingPassengers` or
`numnerOfPassengersWalkingOnTheTrain`. -/
theorem load_train_frame (s : station) (count : Int) :
    ((station_load_train_enter s count).exit = Exit.returned →
        (station_load_train_enter s count).st.numnerOfEmptySeats = 0) ∧
    ((station_load_train_wake s).exit = Exit.returned →
        (station_load_train_wake s).st.numnerOfEmptySeats = 0) ∧
    (station_load_train_enter s count).st.numnerOfWaitingPassengers
        = s.numnerOfWaitingPassengers ∧
    (station_load_train_enter s count).st.numnerOfPassengersWalkingOnTheTrain
        = s.numnerOfPassengersWalkingOnTheTrain ∧
    (station_load_train_wake s).st.numnerOfWaitingPassengers
        = s.numnerOfWaitingPassengers ∧
    (station_load_train_wake s).st.numnerOfPassengersWalkingOnTheTrain
        = s.numnerOfPassengersWalkingOnTheTrain := by
  simp only [station_load_train_enter, station_load_train_wake, station_load_train_loop]
  refine ⟨?_, ?_, ?_, ?_, ?_, ?_⟩
  · cases load_train_guard { s with numnerOfEmptySeats := count } <;> simp
  · cases load_train_guard s <;> simp
  · cases load_train_guard { s with numnerOfEmptySeats := count } <;> simp
  · cases load_train_guard { s with numnerOfEmptySeats := count } <;> simp
  · cases load_train_guard s <;> simp
  · cases load_train_guard s <;> simp

/-- Instance: a train without seats at three waiting passengers, and a train
woken with seven seats left and nobody waiting. -/
theorem load_train_frame_witness :
    (station_load_train_enter ⟨0, 3, 0⟩ 0).exit = Exit.returned ∧
      (station_load_train_enter ⟨0, 3, 0⟩ 0).st.numnerOfEmptySeats = 0 ∧
    (station_load_train_wake ⟨7, 0, 0⟩).exit = Exit.returned ∧
      (station_load_train_wake ⟨7, 0, 0⟩).st.numnerOfEmptySeats = 0 :=
  ⟨by decide, (load_train_frame ⟨0, 3, 0⟩ 0).1 (by decide),
    by decide, (load_train_frame ⟨7, 0, 0⟩ 0).2.1 (by decide)⟩

/-- C8. With `n > 0` passengers waiting and nobody walking on the train,
`station_load_train(0)` broadcasts nothing and returns in its first section
without sleeping, leaving `numnerOfWaitingPassengers = n`,
`numnerOfEmptySeats = 0` and `numnerOfPassengersWalkingOnTheTrain = 0`; a
sleeping passenger that re-checks the seats in the state it leaves goes back to
sleep without changing anything.  In the interleaving model the call is a single
step that moves no passenger, and every wake-up of a sleeping passenger after it
is a step back to the same state. -/
theorem load_train_zero (s : station) (n : Int) (hn : 0 < n)
    (hW : s.numnerOfWaitingPassengers = n)
    (hB : s.numnerOfPassengersWalkingOnTheTrain = 0) :
    (station_load_train_enter s 0).broadcastArrived = false ∧
    (station_load_train_enter s 0).exit = Exit.returned ∧
    (station_load_train_enter s 0).st = ⟨0, n, 0⟩ ∧
    (station_wait_for_train_wake (station_load_train_enter s 0).st).exit = Exit.blocked ∧
    (station_wait_for_train_wake (station_load_train_enter s 0).st).st = ⟨0, n, 0⟩ ∧
    ∀ sys : Sys, sys.st = s → sys.train = none →
      ∃ sys', step sys (Step.load_train 0) = some sys' ∧ sys'.train = none ∧
        sys'.pcs = sys.pcs ∧ sys'.st = ⟨0, n, 0⟩ ∧
        ∀ i : Nat, sys'.pcs[i]? = some PC.blocked →
          step sys' (Step.passenger_wake i) = some sys' := by
  have hr : station_load_train_enter s 0 =
      { st := ⟨0, n, 0⟩, exit := Exit.returned, broadcastArrived := false,
        signalSeated := false } := by
    obtain ⟨e, w, b⟩ := s
    simp only at hW hB
    subst hW hB
    simp [station_load_train_enter, station_load_train_loop, load_train_guard,
      load_train_announce]
  rw [hr]
  refine ⟨rfl, rfl, rfl, ?_, ?_, ?_⟩
  · simp [station_wait_for_train_wake, station_wait_for_train_loop]
  · simp [station_wait_for_train_wake, station_wait_for_train_loop]
  · intro sys hst ht
    refine ⟨{ sys with st := ⟨0, n, 0⟩,
                       departed := sys.departed ++ [⟨0, n, 0⟩] }, ?_, ht, rfl, rfl, ?_⟩
    · simp [step, ht, hst, hr, hW]
    · intro i hi
      simp only at hi
      simp [step, hi, station_wait_for_train_wake, station_wait_for_train_loop]

/-- Instance: `station_load_train(0)` with three passengers waiting. -/
theorem load_train_zero_witness :
    (0 : Int) < 3 ∧
    (station_load_train_enter ⟨0, 3, 0⟩ 0).broadcastArrived = false ∧
    (station_load_train_enter ⟨0, 3, 0⟩ 0).exit = Exit.returned ∧
    (station_load_train_enter ⟨0, 3, 0⟩ 0).st = ⟨0, 3, 0⟩ ∧
    (station_wait_for_train_wake (station_load_train_enter ⟨0, 3, 0⟩ 0).st).exit
      = Exit.blocked :=
  have w := load_train_zero ⟨0, 3, 0⟩ 3 (by decide) rfl rfl
  ⟨by decide, w.1, w.2.1, w.2.2.1, w.2.2.2.1⟩

/-! ## Counting passengers -/

theorem entered_eq_counts (l : List PC) :
    l.countP (fun pc => pc != PC.idle)
      = l.count PC.blocked + l.count PC.boarding + l.count PC.seated := by
  induction l with
  | nil => rfl
  | cons p l ih =>
    cases p <;> simp [List.countP_cons, List.count_cons, ih] <;> omega

theorem length_eq_counts (l : List PC) :
    l.length = l.count PC.idle + l.count PC.blocked + l.count PC.boarding
      + l.count PC.seated := by
  induction l with
  | nil => rfl
  | cons p l ih =>
    cases p <;> simp [List.count_cons, ih] <;> omega

theorem step_length {s s' : Sys} {a : Step} (h : step s a = some s') :
    s'.pcs.length = s.pcs.length := by
  cases a with
  | load_train count =>
    cases ht : s.train with
    | some c => simp [step, ht] at h
    | none =>
      simp only [step, ht] at h
      split at h <;> (simp only [Option.some.injEq] at h; subst h; rfl)
  | train_wake =>
    cases ht : s.train with
    | none => simp [step, ht] at h
    | some c =>
      simp only [step, ht] at h
      split at h <;> (simp only [Option.some.injEq] at h; subst h; rfl)
  | wait_for_train i =>
    simp only [step] at h
    split at h
    · split at h <;> (simp only [Option.some.injEq] at h; subst h; simp)
    · simp at h
  | passenger_wake i =>
    simp only [step] at h
    split at h
    · split at h <;> (simp only [Option.some.injEq] at h; subst h; simp)
    · simp at h
  | on_board i =>
    simp only [step] at h
    split at h
    · simp only [Option.some.injEq] at h; subst h; simp
    · simp at h

theorem run_length {steps : List Step} : ∀ {s s' : Sys},
    run s steps = some s' → s'.pcs.length = s.pcs.length := by
  induction steps with
  | nil =>
    intro s s' h
    simp only [run, Option.some.injEq] at h
    rw [h]
  | cons a rest ih =>
    intro s s' h
    simp only [run] at h
    cases hs : step s a with
    | none => simp [hs] at h
    | some s1 =>
      simp only [hs, Option.some_bind] at h
      rw [ih h, step_length hs]

/-- C10. Conservation of passengers in every reachable state: the passengers
that have entered `station_wait_for_train` are those still waiting, those
walking on the train and those that have called `station_on_board`; the
passengers served by all trains together are those walking on the train plus
those that have called `station_on_board`; and once all `n` passengers have
called `station_on_board`, the trains have served exactly `n` passengers. -/
theorem passengers_conserved (n : Nat) (steps : List Step) (s : Sys)
    (hc : ∀ a ∈ steps, a.capOk = true) (h : run (init n) steps = some s) :
    s.entered = s.st.numnerOfWaitingPassengers + s.st.numnerOfPassengersWalkingOnTheTrain
        + s.num PC.seated ∧
    s.servedTotal = s.st.numnerOfPassengersWalkingOnTheTrain + s.num PC.seated ∧
    s.pcs.length = n ∧
    (s.num PC.seated = n → s.servedTotal = n) := by
  have hi := reachable_inv hc h
  have hlen : s.pcs.length = n := by
    rw [run_length h]; simp [init]
  have hparts := length_eq_counts s.pcs
  have hent := entered_eq_counts s.pcs
  have hW := hi.waiting
  have hB := hi.walking
  have hT := hi.total
  simp only [Sys.num, Sys.entered] at *
  refine ⟨by omega, by omega, hlen, ?_⟩
  intro hs
  omega

/-- Instance: scenario C from `station_init`, both passengers seated at the end. -/
theorem passengers_conserved_witness :
    (∀ a ∈ scenarioCFull, a.capOk = true) ∧
      run (init 2) scenarioCFull = some scenarioCEnd ∧
      scenarioCEnd.entered = 0 + 0 + 2 ∧ scenarioCEnd.servedTotal = 0 + 2 ∧
      scenarioCEnd.num PC.seated = 2 ∧ scenarioCEnd.servedTotal = 2 :=
  have w := passengers_conserved 2 scenarioCFull scenarioCEnd (by decide) (by decide)
  ⟨by decide, by decide, w.1, w.2.1, by decide, w.2.2.2 (by decide)⟩

/-! ## The closed scenario -/

/-- C12. Whatever the station held before, `station_init` leaves the three
counters at zero. -/
theorem station_init_zero (s : station) :
    (station_init s).numnerOfEmptySeats = 0 ∧
      (station_init s).numnerOfWaitingPassengers = 0 ∧
      (station_init s).numnerOfPassengersWalkingOnTheTrain = 0 :=
  ⟨rfl, rfl, rfl⟩

/-- C14. `station_on_board` lowers `numnerOfPassengersWalkingOnTheTrain` by
exactly one, leaves the other two counters unchanged, never sleeps, and signals
`all_passengers_seated` exactly when, after the decrement, nobody is walking on
the train and there is no empty seat or no waiting passenger. -/
theorem on_board_effect (s : station) :
    (station_on_board s).st.numnerOfPassengersWalkingOnTheTrain
        = s.numnerOfPassengersWalkingOnTheTrain - 1 ∧
    (station_on_board s).st.numnerOfEmptySeats = s.numnerOfEmptySeats ∧
    (station_on_board s).st.numnerOfWaitingPassengers = s.numnerOfWaitingPassengers ∧
    (station_on_board s).exit = Exit.returned ∧
    (station_on_board s).broadcastArrived = false ∧
    ((station_on_board s).signalSeated = true ↔
      s.numnerOfPassengersWalkingOnTheTrain - 1 = 0 ∧
        (s.numnerOfEmptySeats = 0 ∨ s.numnerOfWaitingPassengers = 0)) := by
  refine ⟨rfl, rfl, rfl, rfl, rfl, ?_⟩
  simp [station_on_board, on_board_test]

/-- C16. `station_on_board` checks nothing: called with nobody walking on the
train, for example right after `station_init`, it returns normally and leaves
`numnerOfPassengersWalkingOnTheTrain = -1`. -/
theorem on_board_misuse (s : station) :
    (s.numnerOfPassengersWalkingOnTheTrain = 0 →
      (station_on_board s).exit = Exit.returned ∧
        (station_on_board s).st.numnerOfPassengersWalkingOnTheTrain = -1) ∧
    (station_on_board (station_init s)).exit = Exit.returned ∧
    (station_on_board (station_init s)).st = ⟨0, 0, -1⟩ := by
  refine ⟨fun h => ⟨rfl, ?_⟩, rfl, rfl⟩
  simp [station_on_board, h]

/-- Instance: `station_on_board` on a station with two empty seats, three waiting
passengers and nobody walking. -/
theorem on_board_misuse_witness :
    (⟨2, 3, 0⟩ : station).numnerOfPassengersWalkingOnTheTrain = 0 ∧
      (station_on_board ⟨2, 3, 0⟩).exit = Exit.returned ∧
      (station_on_board ⟨2, 3, 0⟩).st.numnerOfPassengersWalkingOnTheTrain = -1 :=
  ⟨rfl, (on_board_misuse ⟨2, 3, 0⟩).1 rfl⟩

theorem guard_false_iff_spec (s : station) (hE : 0 ≤ s.numnerOfEmptySeats)
    (hW : 0 ≤ s.numnerOfWaitingPassengers)
    (hB : 0 ≤ s.numnerOfPassengersWalkingOnTheTrain) :
    ¬ load_train_guard s = true ↔ specDepartureCondition s := by
  rw [load_train_guard_iff]
  unfold specDepartureCondition
  omega

/-- C17. In a state with non-negative counters the loop test of
`station_load_train` is false, and so its wait loop is left, exactly when the
condition of the specification holds: nobody walking on the train and no empty
seat or no waiting passenger.  In every state this condition is the test
`station_on_board` makes before it signals. -/
theorem loop_exit_iff_spec_condition (s : station) (hE : 0 ≤ s.numnerOfEmptySeats)
    (hW : 0 ≤ s.numnerOfWaitingPassengers)
    (hB : 0 ≤ s.numnerOfPassengersWalkingOnTheTrain) :
    (load_train_guard s = false ↔ specDepartureCondition s) ∧
    ((station_load_train_wake s).exit = Exit.returned ↔ specDepartureCondition s) ∧
    (∀ count : Int, 0 ≤ count →
      ((station_load_train_enter s count).exit = Exit.returned ↔
        specDepartureCondition { s with numnerOfEmptySeats := count })) ∧
    (∀ t : station, on_board_test t = true ↔ specDepartureCondition t) := by
  have key := guard_false_iff_spec s hE hW hB
  refine ⟨?_, ?_, ?_, ?_⟩
  · rw [← key]; simp
  · rw [← key]
    show (station_load_train_loop s).exit = Exit.returned ↔ _
    rw [load_train_loop_exit, load_train_guard_iff]
  · intro count hc
    rw [← guard_false_iff_spec { s with numnerOfEmptySeats := count } hc hW hB]
    show (station_load_train_loop { s with numnerOfEmptySeats := count }).exit
      = Exit.returned ↔ _
    rw [load_train_loop_exit, load_train_guard_iff]
  · intro t
    simp [on_board_test, specDepartureCondition]

/-- Instance: one empty seat left, nobody waiting, nobody walking. -/
theorem loop_exit_iff_spec_condition_witness :
    (0 : Int) ≤ 1 ∧ (0 : Int) ≤ 0 ∧
      (load_train_guard ⟨1, 0, 0⟩ = false ↔ specDepartureCondition ⟨1, 0, 0⟩) ∧
      ((station_load_train_wake ⟨1, 0, 0⟩).exit = Exit.returned ↔
        specDepartureCondition ⟨1, 0, 0⟩) :=
  have w := loop_exit_iff_spec_condition ⟨1, 0, 0⟩ (by decide) (by decide) (by decide)
  ⟨by decide, by decide, w.1, w.2.1⟩

/-- C13. Seat claim is one atomic transition.  `station_wait_for_train` first
increments `numnerOfWaitingPassengers`; each of its sections leaves the loop
exactly when `numnerOfEmptySeats ≠ 0` and then changes the counters by exactly
`-1, -1, +1`, and otherwise sleeps without changing anything; so a call that
finds an empty seat returns at once with one seat less, one more passenger
walking and the waiting count unchanged.  No other operation decrements
`numnerOfEmptySeats`: `station_on_board` leaves it unchanged and
`station_load_train` only assigns it, `count` at arrival whatever it held before
(line 26) and 0 at departure (line 46). -/
theorem seat_claim_atomic (s : station) (count : Int) :
    station_wait_for_train_enter s = station_wait_for_train_loop
      { s with numnerOfWaitingPassengers := s.numnerOfWaitingPassengers + 1 } ∧
    station_wait_for_train_wake s = station_wait_for_train_loop s ∧
    ((station_wait_for_train_loop s).exit = Exit.returned ↔ s.numnerOfEmptySeats ≠ 0) ∧
    (s.numnerOfEmptySeats ≠ 0 →
      (station_wait_for_train_loop s).st =
        ⟨s.numnerOfEmptySeats - 1, s.numnerOfWaitingPassengers - 1,
          s.numnerOfPassengersWalkingOnTheTrain + 1⟩) ∧
    (s.numnerOfEmptySeats = 0 →
      (station_wait_for_train_loop s).exit = Exit.blocked ∧
        (station_wait_for_train_loop s).st = s) ∧
    (s.numnerOfEmptySeats > 0 →
      (station_wait_for_train_enter s).exit = Exit.returned ∧
        (station_wait_for_train_enter s).st =
          ⟨s.numnerOfEmptySeats - 1, s.numnerOfWaitingPassengers,
            s.numnerOfPassengersWalkingOnTheTrain + 1⟩) ∧
    (station_on_board s).st.numnerOfEmptySeats = s.numnerOfEmptySeats ∧
    ((station_load_train_enter s count).st.numnerOfEmptySeats = count ∨
      (station_load_train_enter s count).st.numnerOfEmptySeats = 0) ∧
    ((station_load_train_wake s).st.numnerOfEmptySeats = s.numnerOfEmptySeats ∨
      (station_load_train_wake s).st.numnerOfEmptySeats = 0) ∧
    (∀ e : Int, station_load_train_enter { s with numnerOfEmptySeats := e } count
      = station_load_train_enter s count) := by
  refine ⟨rfl, rfl, ?_, ?_, ?_, ?_, rfl, ?_, ?_, fun _ => rfl⟩
  · by_cases hz : s.numnerOfEmptySeats = 0 <;> simp [station_wait_for_train_loop, hz]
  · intro hz
    simp [station_wait_for_train_loop, hz, claim_seat]
  · intro hz
    simp [station_wait_for_train_loop, hz]
  · intro hpos
    have hz : ¬ s.numnerOfEmptySeats = 0 := by omega
    simp [station_wait_for_train_enter, station_wait_for_train_loop, hz, claim_seat]
  · simp only [station_load_train_enter, station_load_train_loop]
    cases load_train_guard { s with numnerOfEmptySeats := count } <;> simp
  · simp only [station_load_train_wake, station_load_train_loop]
    cases load_train_guard s <;> simp

/-- Instance: a passenger arrives while two seats are empty and one passenger
already waits. -/
theorem seat_claim_atomic_witness :
    (⟨2, 1, 0⟩ : station).numnerOfEmptySeats > 0 ∧
      (station_wait_for_train_enter ⟨2, 1, 0⟩).exit = Exit.returned ∧
      (station_wait_for_train_enter ⟨2, 1, 0⟩).st = ⟨1, 1, 1⟩ :=
  ⟨by decide, (seat_claim_atomic ⟨2, 1, 0⟩ 0).2.2.2.2.2.1 (by decide)⟩

/-- C15. In every reachable state (capacities `≥ 0`, sequential trains), an empty
seat means that a `station_load_train` call is in progress and that it has served
fewer passengers than its capacity; and when no call is in progress
`numnerOfEmptySeats = 0`. -/
theorem empty_seat_means_train (n : Nat) (steps : List Step) (s : Sys)
    (hc : ∀ a ∈ steps, a.capOk = true) (h : run (init n) steps = some s) :
    (s.st.numnerOfEmptySeats > 0 →
      ∃ call, s.train = some call ∧ call.served < call.capacity) ∧
    (s.train = none → s.st.numnerOfEmptySeats = 0) := by
  have hi := reachable_inv hc h
  refine ⟨?_, fun ht => (hi.idleTrain ht).1⟩
  intro hpos
  cases ht : s.train with
  | none =>
    have := (hi.idleTrain ht).1
    omega
  | some call =>
    obtain ⟨-, h2, -⟩ := hi.inCall call ht
    exact ⟨call, rfl, by omega⟩

/-- Instance: in `scenarioSeatLeft` one of two seats is still empty. -/
theorem empty_seat_means_train_witness :
    (∀ a ∈ scenarioSeatLeft, a.capOk = true) ∧
      run (init 1) scenarioSeatLeft = some scenarioSeatLeftEnd ∧
      scenarioSeatLeftEnd.st.numnerOfEmptySeats > 0 ∧
      ∃ call, scenarioSeatLeftEnd.train = some call ∧ call.served < call.capacity :=
  ⟨by decide, by decide, by decide,
    (empty_seat_means_train 1 scenarioSeatLeft scenarioSeatLeftEnd (by decide) (by decide)).1
      (by decide)⟩

/-! ## Explicit wake-ups -/

theorem mem_blockedIndices (pcs : List PC) (i : Nat) :
    i ∈ blockedIndices pcs ↔ pcs[i]? = some PC.blocked := by
  simp only [blockedIndices, List.mem_filter, List.mem_range, decide_eq_true_eq]
  constructor
  · exact fun h => h.2
  · intro h
    exact ⟨(List.getElem?_eq_some_iff.mp h).1, h⟩

theorem live_step_base {s s' : LiveSys} {a : Step} (h : liveStep s a = some s') :
    step s.base a = some s'.base := by
  cases a with
  | load_train count =>
    simp only [liveStep] at h
    split at h
    · obtain ⟨b, hb, rfl⟩ := Option.map_eq_some'.mp h
      exact hb
    · simp at h
  | train_wake =>
    simp only [liveStep] at h
    split at h
    · obtain ⟨b, hb, rfl⟩ := Option.map_eq_some'.mp h
      exact hb
    · simp at h
  | wait_for_train i =>
    simp only [liveStep] at h
    obtain ⟨b, hb, rfl⟩ := Option.map_eq_some'.mp h
    exact hb
  | passenger_wake i =>
    simp only [liveStep] at h
    split at h
    · obtain ⟨b, hb, rfl⟩ := Option.map_eq_some'.mp h
      exact hb
    · simp at h
  | on_board i =>
    simp only [liveStep] at h
    obtain ⟨b, hb, rfl⟩ := Option.map_eq_some'.mp h
    exact hb

theorem live_step_capOk {s s' : LiveSys} {a : Step} (hp : ∀ c ∈ s.pending, 0 ≤ c)
    (h : liveStep s a = some s') :
    a.capOk = true ∧ s.pending = capacities [a] ++ s'.pending := by
  cases a with
  | load_train count =>
    simp only [liveStep] at h
    split at h
    · rename_i hh
      obtain ⟨b, hb, rfl⟩ := Option.map_eq_some'.mp h
      cases hpend : s.pending with
      | nil => simp [hpend] at hh
      | cons c rest =>
        simp only [hpend, List.head?_cons, Option.some.injEq] at hh
        subst hh
        refine ⟨?_, by simp [capacities]⟩
        simpa [Step.capOk] using hp c (by simp [hpend])
    · simp at h
  | train_wake =>
    simp only [liveStep] at h
    split at h
    · obtain ⟨b, hb, rfl⟩ := Option.map_eq_some'.mp h
      exact ⟨rfl, by simp [capacities]⟩
    · simp at h
  | wait_for_train i =>
    simp only [liveStep] at h
    obtain ⟨b, hb, rfl⟩ := Option.map_eq_some'.mp h
    exact ⟨rfl, by simp [capacities]⟩
  | passenger_wake i =>
    simp only [liveStep] at h
    split at h
    · obtain ⟨b, hb, rfl⟩ := Option.map_eq_some'.mp h
      exact ⟨rfl, by simp [capacities]⟩
    · simp at h
  | on_board i =>
    simp only [liveStep] at h
    obtain ⟨b, hb, rfl⟩ := Option.map_eq_some'.mp h
    exact ⟨rfl, by simp [capacities]⟩

theorem blocked_of_set {l : List PC} {i j : Nat} {x : PC} (hx : x ≠ PC.blocked)
    (h : (l.set i x)[j]? = some PC.blocked) : l[j]? = some PC.blocked ∧ j ≠ i := by
  rw [List.getElem?_set] at h
  by_cases hij : i = j
  · rw [if_pos hij] at h
    split at h
    · simp only [Option.some.injEq] at h
      exact absurd h hx
    · simp at h
  · rw [if_neg hij] at h
    exact ⟨h, fun e => hij e.symm⟩

theorem live_inv_step {s s' : LiveSys} {a : Step} (hi : LiveInv s)
    (h : liveStep s a = some s') : LiveInv s' := by
  obtain ⟨hcap, hpend⟩ := live_step_capOk hi.pendingOk h
  have hb' := live_step_base h
  have hbase' : Inv s'.base := inv_step hi.base hcap hb'
  have hpen' : ∀ c ∈ s'.pending, 0 ≤ c := fun c hc =>
    hi.pendingOk c (by rw [hpend]; exact List.mem_append_right _ hc)
  have hW := hi.base.waiting
  have hB := hi.base.walking
  have hE := hi.base.seats
  simp only [Sys.num] at hW hB
  refine ⟨hbase', ?_, ?_, hpen'⟩
  · -- seats imply woken passengers
    cases a with
    | load_train count =>
      simp only [Step.capOk, decide_eq_true_eq] at hcap
      simp only [liveStep] at h
      split at h
      · obtain ⟨b, hb, rfl⟩ := Option.map_eq_some'.mp h
        cases ht : s.base.train with
        | some c => simp [step, ht] at hb
        | none =>
          by_cases hg : load_train_guard { s.base.st with numnerOfEmptySeats := count } = true
          · simp [step, ht, station_load_train_enter, station_load_train_loop, hg] at hb
            subst hb
            intro hne i hblk
            simp only at hblk
            have hpos := List.count_pos_iff.mpr (List.getElem?_mem hblk)
            have hann : load_train_announce
                { s.base.st with numnerOfEmptySeats := count } = true := by
              simp only [load_train_announce, Bool.and_eq_true, decide_eq_true_eq]
              simp only at hne
              constructor <;> omega
            simp only [station_load_train_enter, hann, if_true]
            exact (mem_blockedIndices _ _).mpr hblk
          · simp [step, ht, station_load_train_enter, station_load_train_loop, hg] at hb
            subst hb
            intro hne
            simp at hne
      · simp at h
    | train_wake =>
      simp only [liveStep] at h
      split at h
      · obtain ⟨b, hb, rfl⟩ := Option.map_eq_some'.mp h
        cases ht : s.base.train with
        | none => simp [step, ht] at hb
        | some c =>
          by_cases hg : load_train_guard s.base.st = true
          · simp [step, ht, station_load_train_wake, station_load_train_loop, hg] at hb
            subst hb
            exact hi.seatsWoken
          · simp [step, ht, station_load_train_wake, station_load_train_loop, hg] at hb
            subst hb
            intro hne
            simp at hne
      · simp at h
    | wait_for_train i =>
      simp only [liveStep] at h
      obtain ⟨b, hb, rfl⟩ := Option.map_eq_some'.mp h
      by_cases hp : s.base.pcs[i]? = some PC.idle
      · by_cases hz : s.base.st.numnerOfEmptySeats = 0
        · simp [step, hp, station_wait_for_train_enter, station_wait_for_train_loop,
            hz] at hb
          subst hb
          intro hne
          simp at hne
        · simp [step, hp, station_wait_for_train_enter, station_wait_for_train_loop,
            hz, claim_seat] at hb
          subst hb
          intro _ j hj
          exact hi.seatsWoken hz j (blocked_of_set (by decide) hj).1
      · simp [step, hp] at hb
    | passenger_wake i =>
      simp only [liveStep] at h
      split at h
      · obtain ⟨b, hb, rfl⟩ := Option.map_eq_some'.mp h
        by_cases hp : s.base.pcs[i]? = some PC.blocked
        · by_cases hz : s.base.st.numnerOfEmptySeats = 0
          · simp [step, hp, station_wait_for_train_wake, station_wait_for_train_loop,
              hz] at hb
            subst hb
            intro hne
            exact absurd hz hne
          · simp [step, hp, station_wait_for_train_wake, station_wait_for_train_loop,
              hz, claim_seat] at hb
            subst hb
            intro _ j hj
            obtain ⟨hj1, hj2⟩ := blocked_of_set (by decide) hj
            simp only [List.mem_filter, decide_eq_true_eq]
            exact ⟨hi.seatsWoken hz j hj1, hj2⟩
        · simp [step, hp] at hb
      · simp at h
    | on_board i =>
      simp only [liveStep] at h
      obtain ⟨b, hb, rfl⟩ := Option.map_eq_some'.mp h
      by_cases hp : s.base.pcs[i]? = some PC.boarding
      · simp [step, hp, station_on_board] at hb
        subst hb
        intro hne j hj
        exact hi.seatsWoken hne j (blocked_of_set (by decide) hj).1
      · simp [step, hp] at hb
  · -- a sleeping train has been signalled or must keep waiting
    cases a with
    | load_train count =>
      simp only [liveStep] at h
      split at h
      · obtain ⟨b, hb, rfl⟩ := Option.map_eq_some'.mp h
        cases ht : s.base.train with
        | some c => simp [step, ht] at hb
        | none =>
          by_cases hg : load_train_guard { s.base.st with numnerOfEmptySeats := count } = true
          · simp [step, ht, station_load_train_enter, station_load_train_loop, hg] at hb
            subst hb
            intro _
            exact Or.inr hg
          · simp [step, ht, station_load_train_enter, station_load_train_loop, hg] at hb
            subst hb
            intro hne
            exact absurd rfl hne
      · simp at h
    | train_wake =>
      simp only [liveStep] at h
      split at h
      · obtain ⟨b, hb, rfl⟩ := Option.map_eq_some'.mp h
        cases ht : s.base.train with
        | none => simp [step, ht] at hb
        | some c =>
          by_cases hg : load_train_guard s.base.st = true
          · simp [step, ht, station_load_train_wake, station_load_train_loop, hg] at hb
            subst hb
            intro _
            exact Or.inr hg
          · simp [step, ht, station_load_train_wake, station_load_train_loop, hg] at hb
            subst hb
            intro hne
            simp at hne
      · simp at h
    | wait_for_train i =>
      simp only [liveStep] at h
      obtain ⟨b, hb, rfl⟩ := Option.map_eq_some'.mp h
      by_cases hp : s.base.pcs[i]? = some PC.idle
      · by_cases hz : s.base.st.numnerOfEmptySeats = 0
        · simp [step, hp, station_wait_for_train_enter, station_wait_for_train_loop,
            hz] at hb
          subst hb
          intro hne
          have hne0 : s.base.train ≠ none := by
            intro e; simp [e] at hne
          rcases hi.trainSignalled hne0 with h1 | h1
          · exact Or.inl h1
          · right
            rw [load_train_guard_iff] at h1 ⊢
            simp only
            omega
        · simp [step, hp, station_wait_for_train_enter, station_wait_for_train_loop,
            hz, claim_seat] at hb
          subst hb
          intro _
          right
          rw [load_train_guard_iff]
          simp only
          omega
      · simp [step, hp] at hb
    | passenger_wake i =>
      simp only [liveStep] at h
      split at h
      · obtain ⟨b, hb, rfl⟩ := Option.map_eq_some'.mp h
        by_cases hp : s.base.pcs[i]? = some PC.blocked
        · by_cases hz : s.base.st.numnerOfEmptySeats = 0
          · simp [step, hp, station_wait_for_train_wake, station_wait_for_train_loop,
              hz] at hb
            subst hb
            exact hi.trainSignalled
          · simp [step, hp, station_wait_for_train_wake, station_wait_for_train_loop,
              hz, claim_seat] at hb
            subst hb
            intro _
            right
            rw [load_train_guard_iff]
            simp only
            omega
        · simp [step, hp] at hb
      · simp at h
    | on_board i =>
      simp only [liveStep] at h
      obtain ⟨b, hb, rfl⟩ := Option.map_eq_some'.mp h
      by_cases hp : s.base.pcs[i]? = some PC.boarding
      · have hpos := List.count_pos_iff.mpr (List.getElem?_mem hp)
        simp [step, hp] at hb
        subst hb
        intro hne
        rcases hi.trainSignalled hne with h1 | h1
        · left; simp [h1]
        · rw [load_train_guard_iff] at h1
          by_cases hsig : (station_on_board s.base.st).signalSeated = true
          · left; simp [hsig]
          · right
            simp only [station_on_board, on_board_test, Bool.and_eq_true, Bool.or_eq_true,
              decide_eq_true_eq] at hsig
            rw [load_train_guard_iff]
            simp only [station_on_board]
            omega
      · simp [step, hp] at hb

theorem live_inv_run {steps : List Step} : ∀ {s s' : LiveSys}, LiveInv s →
    liveRun s steps = some s' → LiveInv s' := by
  induction steps with
  | nil =>
    intro s s' hi h
    simp only [liveRun, Option.some.injEq] at h
    exact h ▸ hi
  | cons a rest ih =>
    intro s s' hi h
    simp only [liveRun] at h
    cases hs : liveStep s a with
    | none => simp [hs] at h
    | some s1 =>
      simp only [hs, Option.some_bind] at h
      exact ih (live_inv_step hi hs) h

theorem liveInit_inv (n : Nat) (caps : List Int) (hcaps : ∀ c ∈ caps, 0 ≤ c) :
    LiveInv (liveInit n caps) := by
  refine ⟨init_inv n, ?_, ?_, hcaps⟩
  · intro hne; exact absurd rfl hne
  · intro hne; exact absurd rfl hne

theorem broadcast_iff (t : station) (count : Int) :
    (station_load_train_enter t count).broadcastArrived = true ↔
      count > 0 ∧ t.numnerOfWaitingPassengers > 0 := by
  simp [station_load_train_enter, load_train_announce]

/-- C18. `station_load_train(count)` broadcasts `train_arrived` exactly when
`count > 0` and a passenger is waiting at arrival.  In every reachable state the
passengers asleep on `train_arrived` are at most `numnerOfWaitingPassengers`, so
a train that arrives with `count > 0` while some passenger sleeps does broadcast;
and with wake-ups made explicit, every passenger asleep at that moment is among
the woken ones after the arrival step. -/
theorem broadcast_wakes_all_blocked (n : Nat) :
    (∀ (t : station) (count : Int),
      (station_load_train_enter t count).broadcastArrived = true ↔
        count > 0 ∧ t.numnerOfWaitingPassengers > 0) ∧
    (∀ (steps : List Step) (s : Sys), (∀ a ∈ steps, a.capOk = true) →
      run (init n) steps = some s →
        s.num PC.blocked ≤ s.st.numnerOfWaitingPassengers ∧
        ∀ (count : Int) (i : Nat), count > 0 → s.pcs[i]? = some PC.blocked →
          (station_load_train_enter s.st count).broadcastArrived = true) ∧
    (∀ (caps : List Int) (pre : List Step) (s s' : LiveSys) (count : Int),
      (∀ c ∈ caps, 0 ≤ c) → liveRun (liveInit n caps) pre = some s → count > 0 →
      liveStep s (Step.load_train count) = some s' →
        ∀ i : Nat, s.base.pcs[i]? = some PC.blocked → i ∈ s'.woken) := by
  refine ⟨broadcast_iff, ?_, ?_⟩
  · intro steps s hc h
    have hi := reachable_inv hc h
    have hW := hi.waiting
    refine ⟨by omega, ?_⟩
    intro count i hpos hblk
    have hcnt := List.count_pos_iff.mpr (List.getElem?_mem hblk)
    simp only [Sys.num] at hW
    rw [broadcast_iff]
    exact ⟨hpos, by omega⟩
  · intro caps pre s s' count hcaps hpre hpos hstep i hblk
    have hi := live_inv_run (liveInit_inv n caps hcaps) hpre
    have hW := hi.base.waiting
    simp only [Sys.num] at hW
    have hcnt := List.count_pos_iff.mpr (List.getElem?_mem hblk)
    have hbc : (station_load_train_enter s.base.st count).broadcastArrived = true := by
      rw [broadcast_iff]
      exact ⟨hpos, by omega⟩
    simp only [liveStep] at hstep
    split at hstep
    · obtain ⟨b, -, rfl⟩ := Option.map_eq_some'.mp hstep
      simp only [hbc, if_true]
      exact (mem_blockedIndices _ _).mpr hblk
    · simp at hstep

/-- Instance: five passengers sleep when a train with two seats arrives; its
broadcast wakes all five, passenger 4 among them. -/
theorem broadcast_wakes_all_blocked_witness :
    (∀ c ∈ ([2] : List Int), 0 ≤ c) ∧
    liveRun (liveInit 5 [2]) (arrivals 5) = some scenarioFiveAsleep ∧
    (2 : Int) > 0 ∧
    liveStep scenarioFiveAsleep (Step.load_train 2) = some scenarioFiveWoken ∧
    scenarioFiveAsleep.base.pcs[4]? = some PC.blocked ∧
    4 ∈ scenarioFiveWoken.woken :=
  ⟨by decide, by decide, by decide, by decide, by decide,
    (broadcast_wakes_all_blocked 5).2.2 [2] (arrivals 5) scenarioFiveAsleep
      scenarioFiveWoken 2 (by decide) (by decide) (by decide) (by decide) 4 (by decide)⟩

/-- C19. In a state with non-negative counters where the loop test of
`station_load_train` is true, a passenger's arrival (whether it goes to sleep or
claims a seat at once) and a seat claim leave the test true, and
`station_on_board` makes it false only when it also signals
`all_passengers_seated`.  So in every reachable state, with wake-ups made
explicit, a sleeping `station_load_train` call whose loop test is false has been
signalled. -/
theorem no_lost_train_wakeup (s : station) (hE : 0 ≤ s.numnerOfEmptySeats)
    (hW : 0 ≤ s.numnerOfWaitingPassengers)
    (hB : 0 ≤ s.numnerOfPassengersWalkingOnTheTrain)
    (hg : load_train_guard s = true) :
    load_train_guard
      { s with numnerOfWaitingPassengers := s.numnerOfWaitingPassengers + 1 } = true ∧
    load_train_guard (station_wait_for_train_enter s).st = true ∧
    load_train_guard (claim_seat s) = true ∧
    (load_train_guard (station_on_board s).st = false →
      (station_on_board s).signalSeated = true) ∧
    (∀ (n : Nat) (caps : List Int) (pre : List Step) (t : LiveSys),
      (∀ c ∈ caps, 0 ≤ c) → liveRun (liveInit n caps) pre = some t →
      t.base.train ≠ none → load_train_guard t.base.st = false → t.trainWoken = true) := by
  rw [load_train_guard_iff] at hg
  refine ⟨?_, ?_, ?_, ?_, ?_⟩
  · rw [load_train_guard_iff]
    simp only
    omega
  · by_cases hz : s.numnerOfEmptySeats = 0
    · simp only [station_wait_for_train_enter, station_wait_for_train_loop, hz, if_true]
      rw [load_train_guard_iff]
      simp only
      omega
    · simp only [station_wait_for_train_enter, station_wait_for_train_loop, hz, if_false,
        claim_seat]
      rw [load_train_guard_iff]
      simp only
      omega
  · rw [load_train_guard_iff]
    simp only [claim_seat]
    omega
  · intro hfalse
    have hn : ¬ load_train_guard (station_on_board s).st = true := by simp [hfalse]
    rw [load_train_guard_iff] at hn
    simp only [station_on_board] at hn
    simp only [station_on_board, on_board_test, Bool.and_eq_true, Bool.or_eq_true,
      decide_eq_true_eq]
    omega
  · intro n caps pre t hcaps hpre hne hfalse
    rcases (live_inv_run (liveInit_inv n caps hcaps) hpre).trainSignalled hne with h1 | h1
    · exact h1
    · simp [hfalse] at h1

/-- Instance: one seat left, nobody waiting, the last passenger is walking to
its seat; when it sits down the loop test turns false and the train is
signalled. -/
theorem no_lost_train_wakeup_witness :
    (0 : Int) ≤ 1 ∧ (0 : Int) ≤ 0 ∧ load_train_guard ⟨1, 0, 1⟩ = true ∧
    load_train_guard (station_on_board ⟨1, 0, 1⟩).st = false ∧
    (station_on_board ⟨1, 0, 1⟩).signalSeated = true :=
  ⟨by decide, by decide, by decide, by decide,
    (no_lost_train_wakeup ⟨1, 0, 1⟩ (by decide) (by decide) (by decide) (by decide)).2.2.2.1
      (by decide)⟩

end Caltrain

namespace Threads

/-! ## `int` arithmetic and storage -/

theorem wrapInt_add (x y : Int) : wrapInt (wrapInt x + wrapInt y) = wrapInt (x + y) := by
  unfold wrapInt; omega

theorem wrapInt_zero : wrapInt 0 = 0 := by decide

theorem wrapInt_of_fits (x : Int) (h1 : -2147483648 ≤ x) (h2 : x < 2147483648) :
    wrapInt x = x := by
  unfold wrapInt; omega

theorem get?_of_sized {m : Matrix} {r c i j : Nat} (hm : Sized m r c) (hi : i < r)
    (hj : j < c) : m.get? i j = some (m.cell i j) := by
  obtain ⟨hlen, hrows⟩ := hm
  have hi' : i < m.data.length := by omega
  have hrow := hrows m.data[i] (List.getElem_mem hi')
  have hj' : j < m.data[i].length := by omega
  simp [Matrix.cell, Matrix.get?, List.getElem?_eq_getElem hi', List.getElem?_eq_getElem hj']

theorem dotLoop_spec (A B : Matrix) (r n c i j : Nat) (hA : Sized A r n) (hB : Sized B n c)
    (hi : i < r) (hj : j < c) : ∀ (fuel k : Nat) (s : Int), k + fuel ≤ n →
    dotLoop A B i j fuel k (wrapInt s)
      = some (wrapInt (s + ((List.range fuel).map
          (fun t => A.cell i (k + t) * B.cell (k + t) j)).sum)) := by
  intro fuel
  induction fuel with
  | zero => intro k s _; simp [dotLoop]
  | succ fuel ih =>
    intro k s hk
    have ha := get?_of_sized hA hi (show k < n by omega)
    have hb := get?_of_sized hB (show k < n by omega) hj
    simp only [dotLoop, ha, hb, wrapInt_add]
    rw [ih (k + 1) _ (by omega), List.range_succ_eq_map]
    simp only [List.map_cons, List.map_map, List.sum_cons, Nat.add_zero]
    congr 2
    rw [add_assoc]
    congr 3
    apply List.map_congr_left
    intro t _
    simp only [Function.comp, Nat.succ_eq_add_one]
    rw [show k + 1 + t = k + (t + 1) by omega]

theorem dot_spec (A B : Matrix) (r n c i j : Nat) (hA : Sized A r n) (hB : Sized B n c)
    (hcols : A.cols = n) (hi : i < r) (hj : j < c) :
    dot A B i j = some (specCell A B n i j) := by
  have h := dotLoop_spec A B r n c i j hA hB hi hj n 0 0 (by omega)
  simp only [wrapInt_zero] at h
  simp only [dot, hcols, Int.toNat_ofNat, h, specCell]
  simp

theorem set?_fills {C : Matrix} {r c i j : Nat} (hC : Sized C r c) (hi : i < r)
    (hj : j < c) (f : Nat → Nat → Int) :
    ∃ C', C.set? i j (f i j) = some C' ∧
      Fills f r c (fun i' j' => i' = i ∧ j' = j) C C' := by
  obtain ⟨hlen, hrows⟩ := hC
  have hi' : i < C.data.length := by omega
  have hrow := hrows C.data[i] (List.getElem_mem hi')
  have hj' : j < C.data[i].length := by omega
  refine ⟨{ C with data := C.data.set i (C.data[i].set j (f i j)) }, ?_, ?_, rfl, rfl, ?_⟩
  · simp [Matrix.set?, List.getElem?_eq_getElem hi', hj']
  · refine ⟨by simpa using hlen, ?_⟩
    intro row hmem
    rcases List.mem_or_eq_of_mem_set hmem with h | h
    · exact hrows row h
    · rw [h, List.length_set]; exact hrow
  · intro i' j'
    constructor
    · rintro ⟨rfl, rfl⟩
      simp [Matrix.cell, Matrix.get?, List.getElem?_set_self hi', List.getElem?_set_self hj']
    · intro hne
      simp only [Matrix.cell, Matrix.get?]
      by_cases h1 : i = i'
      · subst h1
        have h2 : j ≠ j' := fun e => hne ⟨rfl, e.symm⟩
        simp [List.getElem?_set_self hi', List.getElem?_set_ne h2,
          List.getElem?_eq_getElem hi']
      · simp [List.getElem?_set_ne h1]

theorem fills_refl (f : Nat → Nat → Int) (r c : Nat) (C : Matrix) (hC : Sized C r c) :
    Fills f r c (fun _ _ => False) C C :=
  ⟨hC, rfl, rfl, fun _ _ => ⟨fun h => absurd h id, fun _ => rfl⟩⟩

theorem fills_trans {f : Nat → Nat → Int} {r c : Nat} {S1 S2 : Nat → Nat → Prop}
    {C C1 C2 : Matrix} (h1 : Fills f r c S1 C C1) (h2 : Fills f r c S2 C1 C2) :
    Fills f r c (fun i j => S1 i j ∨ S2 i j) C C2 := by
  obtain ⟨-, hr1, hc1, hcell1⟩ := h1
  obtain ⟨hs2, hr2, hc2, hcell2⟩ := h2
  refine ⟨hs2, hr2.trans hr1, hc2.trans hc1, ?_⟩
  intro i j
  constructor
  · intro h
    by_cases hS2 : S2 i j
    · exact (hcell2 i j).1 hS2
    · rw [(hcell2 i j).2 hS2]
      rcases h with h | h
      · exact (hcell1 i j).1 h
      · exact absurd h hS2
  · intro h
    have hn1 : ¬ S1 i j := fun e => h (Or.inl e)
    have hn2 : ¬ S2 i j := fun e => h (Or.inr e)
    rw [(hcell2 i j).2 hn2, (hcell1 i j).2 hn1]

theorem fills_congr {f : Nat → Nat → Int} {r c : Nat} {S S' : Nat → Nat → Prop}
    {C C' : Matrix} (h : Fills f r c S C C') (hS : ∀ i j, S i j ↔ S' i j) :
    Fills f r c S' C C' := by
  obtain ⟨h1, h2, h3, h4⟩ := h
  refine ⟨h1, h2, h3, fun i j => ⟨fun hs => (h4 i j).1 ((hS i j).mpr hs), fun hs => ?_⟩⟩
  exact (h4 i j).2 (fun e => hs ((hS i j).mp e))

theorem element_fills (A B C : Matrix) (r n c i j : Nat) (hA : Sized A r n)
    (hB : Sized B n c) (hcols : A.cols = n) (hC : Sized C r c) (hi : i < r) (hj : j < c) :
    ∃ C', multiply_element A B C i j = some C' ∧
      Fills (specCell A B n) r c (fun i' j' => i' = i ∧ j' = j) C C' := by
  obtain ⟨C', h1, h2⟩ := set?_fills hC hi hj (specCell A B n)
  exact ⟨C', by simp only [multiply_element, dot_spec A B r n c i j hA hB hcols hi hj, h1], h2⟩

/-! ## The three workers -/

theorem rowLoop_fills (A B : Matrix) (r n c i : Nat) (hA : Sized A r n)
    (hB : Sized B n c) (hcols : A.cols = n) (hi : i < r) :
    ∀ (fuel j0 : Nat) (C : Matrix), Sized C r c → j0 + fuel = c →
      ∃ C', rowLoop A B i fuel j0 C = some C' ∧
        Fills (specCell A B n) r c (fun i' j' => i' = i ∧ j0 ≤ j' ∧ j' < c) C C' := by
  intro fuel
  induction fuel with
  | zero =>
    intro j0 C hC hj
    refine ⟨C, rfl, fills_congr (fills_refl _ r c C hC) ?_⟩
    intro i' j'
    constructor
    · exact fun h => absurd h id
    · rintro ⟨-, h1, h2⟩
      omega
  | succ fuel ih =>
    intro j0 C hC hj
    have hj0 : j0 < c := by omega
    obtain ⟨C1, h1, hf1⟩ := set?_fills hC hi hj0 (specCell A B n)
    obtain ⟨C2, h2, hf2⟩ := ih (j0 + 1) C1 hf1.1 (by omega)
    refine ⟨C2, ?_, fills_congr (fills_trans hf1 hf2) ?_⟩
    · simp only [rowLoop, dot_spec A B r n c i j0 hA hB hcols hi hj0, h1, h2]
    · intro i' j'
      constructor
      · rintro (⟨rfl, rfl⟩ | ⟨rfl, h3, h4⟩)
        · exact ⟨rfl, le_refl _, hj0⟩
        · exact ⟨rfl, by omega, h4⟩
      · rintro ⟨rfl, h3, h4⟩
        by_cases e : j' = j0
        · exact Or.inl ⟨rfl, e⟩
        · exact Or.inr ⟨rfl, by omega, h4⟩

theorem matrixColLoop_eq_rowLoop (A B : Matrix) (i : Nat) :
    ∀ (fuel j0 : Nat) (C : Matrix),
      matrixColLoop A B i fuel j0 C = rowLoop A B i fuel j0 C := by
  intro fuel
  induction fuel with
  | zero => intro j0 C; rfl
  | succ fuel ih =>
    intro j0 C
    simp only [matrixColLoop, rowLoop, ih]

theorem multiply_row_fills (A B C : Matrix) (r n c i : Nat) (hA : Sized A r n)
    (hB : Sized B n c) (hcols : A.cols = n) (hbc : B.cols = c) (hC : Sized C r c)
    (hi : i < r) :
    ∃ C', multiply_row A B C i = some C' ∧
      Fills (specCell A B n) r c (fun i' j' => i' = i ∧ j' < c) C C' := by
  obtain ⟨C', h1, h2⟩ := rowLoop_fills A B r n c i hA hB hcols hi c 0 C hC (by omega)
  refine ⟨C', by simp only [multiply_row, hbc, Int.toNat_ofNat, h1], fills_congr h2 ?_⟩
  intro i' j'
  constructor
  · rintro ⟨h3, -, h4⟩; exact ⟨h3, h4⟩
  · rintro ⟨h3, h4⟩; exact ⟨h3, Nat.zero_le _, h4⟩

theorem matrixRowLoop_fills (A B : Matrix) (r n c : Nat) (hA : Sized A r n)
    (hB : Sized B n c) (hcols : A.cols = n) (hbc : B.cols = c) :
    ∀ (fuel i0 : Nat) (C : Matrix), Sized C r c → i0 + fuel = r →
      ∃ C', matrixRowLoop A B fuel i0 C = some C' ∧
        Fills (specCell A B n) r c (fun i' j' => (i0 ≤ i' ∧ i' < r) ∧ j' < c) C C' := by
  intro fuel
  induction fuel with
  | zero =>
    intro i0 C hC hi
    refine ⟨C, rfl, fills_congr (fills_refl _ r c C hC) ?_⟩
    intro i' j'
    constructor
    · exact fun h => absurd h id
    · rintro ⟨⟨h1, h2⟩, -⟩
      omega
  | succ fuel ih =>
    intro i0 C hC hi
    have hi0 : i0 < r := by omega
    obtain ⟨C1, h1, hf1⟩ := multiply_row_fills A B C r n c i0 hA hB hcols hbc hC hi0
    obtain ⟨C2, h2, hf2⟩ := ih (i0 + 1) C1 hf1.1 (by omega)
    refine ⟨C2, ?_, fills_congr (fills_trans hf1 hf2) ?_⟩
    · simp only [multiply_row] at h1
      simp only [matrixRowLoop, matrixColLoop_eq_rowLoop, h1, h2]
    · intro i' j'
      constructor
      · rintro (⟨rfl, h3⟩ | ⟨⟨h3, h4⟩, h5⟩)
        · exact ⟨⟨le_refl _, hi0⟩, h3⟩
        · exact ⟨⟨by omega, h4⟩, h5⟩
      · rintro ⟨⟨h3, h4⟩, h5⟩
        by_cases e : i' = i0
        · exact Or.inl ⟨e, h5⟩
        · exact Or.inr ⟨⟨by omega, h4⟩, h5⟩

theorem runRows_fills (A B : Matrix) (r n c : Nat) (hA : Sized A r n)
    (hB : Sized B n c) (hcols : A.cols = n) (hbc : B.cols = c) :
    ∀ (order : List Nat) (C : Matrix), (∀ i ∈ order, i < r) → Sized C r c →
      ∃ C', runRows A B order C = some C' ∧
        Fills (specCell A B n) r c (fun i' j' => i' ∈ order ∧ j' < c) C C' := by
  intro order
  induction order with
  | nil =>
    intro C _ hC
    refine ⟨C, rfl, fills_congr (fills_refl _ r c C hC) ?_⟩
    intro i' j'
    simp
  | cons i rest ih =>
    intro C hin hC
    obtain ⟨C1, h1, hf1⟩ := multiply_row_fills A B C r n c i hA hB hcols hbc hC
      (hin i (List.mem_cons_self _ _))
    obtain ⟨C2, h2, hf2⟩ := ih C1 (fun k hk => hin k (List.mem_cons_of_mem _ hk)) hf1.1
    refine ⟨C2, by simp only [runRows, h1, h2], fills_congr (fills_trans hf1 hf2) ?_⟩
    intro i' j'
    simp only [List.mem_cons]
    tauto

theorem runElements_fills (A B : Matrix) (r n c : Nat) (hA : Sized A r n)
    (hB : Sized B n c) (hcols : A.cols = n) :
    ∀ (order : List (Nat × Nat)) (C : Matrix),
      (∀ ij ∈ order, ij.1 < r ∧ ij.2 < c) → Sized C r c →
      ∃ C', runElements A B order C = some C' ∧
        Fills (specCell A B n) r c (fun i' j' => (i', j') ∈ order) C C' := by
  intro order
  induction order with
  | nil =>
    intro C _ hC
    refine ⟨C, rfl, fills_congr (fills_refl _ r c C hC) ?_⟩
    intro i' j'
    simp
  | cons ij rest ih =>
    intro C hin hC
    obtain ⟨h3, h4⟩ := hin ij (List.mem_cons_self _ _)
    obtain ⟨C1, h1, hf1⟩ := element_fills A B C r n c ij.1 ij.2 hA hB hcols hC h3 h4
    obtain ⟨C2, h2, hf2⟩ := ih C1 (fun k hk => hin k (List.mem_cons_of_mem _ hk)) hf1.1
    refine ⟨C2, by simp only [runElements, h1, h2], fills_congr (fills_trans hf1 hf2) ?_⟩
    intro i' j'
    simp only [List.mem_cons, Prod.ext_iff]

theorem fills_all (A B C C' : Matrix) (r n c : Nat) {S : Nat → Nat → Prop}
    (h : Fills (specCell A B n) r c S C C') (hS : ∀ i j, i < r → j < c → S i j) :
    C' = product A B C r n c := by
  obtain ⟨⟨hlen, hrows⟩, hr, hc, hcell⟩ := h
  have hdata : C'.data
      = (List.range r).map (fun i => (List.range c).map (specCell A B n i)) := by
    apply List.ext_getElem
    · simp [hlen]
    · intro i h1 h2
      have hi : i < r := by omega
      have hrow := hrows C'.data[i] (List.getElem_mem h1)
      apply List.ext_getElem
      · simp [hrow]
      · intro j h3 h4
        have hj : j < c := by omega
        have hv := (hcell i j).1 (hS i j hi hj)
        simp only [Matrix.cell, Matrix.get?, List.getElem?_eq_getElem h1,
          Option.some_bind, List.getElem?_eq_getElem h3, Option.getD_some] at hv
        simp [hv]
  cases C' with
  | mk rows cols data =>
    simp only at hr hc hdata
    simp only [product, hr, hc, hdata]

theorem product_get? (A B C : Matrix) (r n c i j : Nat) (hi : i < r) (hj : j < c) :
    (product A B C r n c).get? i j = some (specCell A B n i j) := by
  simp [product, Matrix.get?, List.getElem?_map, List.getElem?_range hi,
    List.getElem?_range hj]

theorem rowLoop_eq_runElements (A B : Matrix) (i : Nat) :
    ∀ (fuel j0 : Nat) (C : Matrix),
      rowLoop A B i fuel j0 C
        = runElements A B ((List.range' j0 fuel).map (fun j => (i, j))) C := by
  intro fuel
  induction fuel with
  | zero => intro j0 C; rfl
  | succ fuel ih =>
    intro j0 C
    simp only [rowLoop, List.range'_succ, List.map_cons, runElements, multiply_element]
    cases dot A B i j0 with
    | none => rfl
    | some sum =>
      simp only
      cases C.set? i j0 sum with
      | none => rfl
      | some C1 => exact ih (j0 + 1) C1

/-- C20. For `A` of `r x n`, `B` of `n x c` and result storage of `r x c`, the
three partitionings leave the same matrix: `multiply_matrix` run once,
`multiply_row` run once for every row in any order, and `multiply_element` run
once for every cell in any order all return `product A B C r n c`, whose cell
`(i, j)` holds the sum over `k < n` of `A[i][k] * B[k][j]` as an `int` (the sum
itself when it fits in an `int`).  A row worker is the sequence of the element
steps of its row, so a run of the row workers with their writes interleaved is a
run of the element steps in some order of the cells.  The workers read the
dimensions `A->rows`, `A->cols` and `B->cols` only. -/
theorem partitions_agree (A B C : Matrix) (r n c : Nat)
    (hAr : A.rows = r) (hAc : A.cols = n) (hA : Sized A r n)
    (hBc : B.cols = c) (hB : Sized B n c) (hC : Sized C r c)
    (rowOrder : List Nat) (hrow : rowOrder.Perm (List.range r))
    (cellOrder : List (Nat × Nat))
    (hcell : cellOrder.Perm (List.product (List.range r) (List.range c))) :
    multiply_matrix A B C = some (product A B C r n c) ∧
    runRows A B rowOrder C = some (product A B C r n c) ∧
    runElements A B cellOrder C = some (product A B C r n c) ∧
    (∀ (i : Nat) (D : Matrix),
      multiply_row A B D i = runElements A B ((List.range c).map (fun j => (i, j))) D) ∧
    (∀ i j : Nat, i < r → j < c →
      (product A B C r n c).get? i j
        = some (wrapInt ((List.range n).map (fun k => A.cell i k * B.cell k j)).sum)) ∧
    (∀ i j : Nat, i < r → j < c →
      -2147483648 ≤ ((List.range n).map (fun k => A.cell i k * B.cell k j)).sum →
      ((List.range n).map (fun k => A.cell i k * B.cell k j)).sum < 2147483648 →
      (product A B C r n c).get? i j
        = some ((List.range n).map (fun k => A.cell i k * B.cell k j)).sum) := by
  refine ⟨?_, ?_, ?_, ?_, ?_, ?_⟩
  · obtain ⟨C', h1, h2⟩ := matrixRowLoop_fills A B r n c hA hB hAc hBc r 0 C hC (by omega)
    rw [multiply_matrix, hAr, Int.toNat_ofNat, h1]
    exact congrArg some (fills_all A B C C' r n c h2
      (fun i j hi hj => ⟨⟨Nat.zero_le _, hi⟩, hj⟩))
  · obtain ⟨C', h1, h2⟩ := runRows_fills A B r n c hA hB hAc hBc rowOrder C
      (fun i hi => List.mem_range.mp ((hrow.mem_iff).mp hi)) hC
    rw [h1]
    exact congrArg some (fills_all A B C C' r n c h2
      (fun i j hi hj => ⟨(hrow.mem_iff).mpr (List.mem_range.mpr hi), hj⟩))
  · obtain ⟨C', h1, h2⟩ := runElements_fills A B r n c hA hB hAc cellOrder C
      (fun ij hij => by
        have h3 : (ij.1, ij.2) ∈ List.range r ×ˢ List.range c := (hcell.mem_iff).mp hij
        have h4 := List.mem_product.mp h3
        exact ⟨List.mem_range.mp h4.1, List.mem_range.mp h4.2⟩) hC
    rw [h1]
    exact congrArg some (fills_all A B C C' r n c h2
      (fun i j hi hj => (hcell.mem_iff).mpr
        (show (i, j) ∈ List.range r ×ˢ List.range c from
          List.mem_product.mpr ⟨List.mem_range.mpr hi, List.mem_range.mpr hj⟩)))
  · intro i D
    rw [multiply_row, hBc, Int.toNat_ofNat, rowLoop_eq_runElements, List.range_eq_range']
  · intro i j hi hj
    exact product_get? A B C r n c i j hi hj
  · intro i j hi hj h1 h2
    rw [product_get? A B C r n c i j hi hj, specCell, wrapInt_of_fits _ h1 h2]

/-- Instance: a 2 x 3 matrix times a 3 x 2 matrix, the row workers run in the
order 1, 0 and the element workers in the order (1,1), (0,0), (1,0), (0,1). -/
theorem partitions_agree_witness :
    Sized exampleA 2 3 ∧ Sized exampleB 3 2 ∧ Sized exampleC 2 2 ∧
    List.Perm [1, 0] (List.range 2) ∧
    List.Perm [(1, 1), (0, 0), (1, 0), (0, 1)] (List.product (List.range 2) (List.range 2)) ∧
    product exampleA exampleB exampleC 2 3 2 = exampleAB ∧
    multiply_matrix exampleA exampleB exampleC
      = some (product exampleA exampleB exampleC 2 3 2) ∧
    runRows exampleA exampleB [1, 0] exampleC
      = some (product exampleA exampleB exampleC 2 3 2) ∧
    runElements exampleA exampleB [(1, 1), (0, 0), (1, 0), (0, 1)] exampleC
      = some (product exampleA exampleB exampleC 2 3 2) :=
  have hA : Sized exampleA 2 3 := ⟨rfl, by decide⟩
  have hB : Sized exampleB 3 2 := ⟨rfl, by decide⟩
  have hC : Sized exampleC 2 2 := ⟨rfl, by decide⟩
  have w := partitions_agree exampleA exampleB exampleC 2 3 2 rfl rfl hA rfl hB hC
    [1, 0] (by decide) [(1, 1), (0, 0), (1, 0), (0, 1)] (by decide)
  ⟨hA, hB, hC, by decide, by decide, by decide, w.1, w.2.1, w.2.2.1⟩

end Threads

namespace Shell

/-! ## `parse_input` -/

theorem argv_of_slots (acc : List (List Char)) (tl : List (Option (List Char)))
    (bg : Int) :
    (Parsed.mk (acc.map some ++ none :: tl) bg).argv = acc := by
  induction acc with
  | nil => simp [Parsed.argv]
  | cons a rest ih =>
    simp only [Parsed.argv] at ih ⊢
    simp [List.takeWhile_cons, ih]

theorem readTokens_length (n : Nat) : ∀ p : List Char, (readTokens n p).length ≤ n := by
  induction n with
  | zero => intro p; simp [readTokens]
  | succ n ih =>
    intro p
    simp only [readTokens]
    cases readToken p with
    | none => simp
    | some tr =>
      have := ih tr.2
      simp only [List.length_cons]
      omega

theorem readTokens_take (n k : Nat) : ∀ p : List Char,
    readTokens n p = (readTokens (n + k) p).take n := by
  induction n with
  | zero => intro p; simp [readTokens]
  | succ n ih =>
    intro p
    rw [show n + 1 + k = (n + k) + 1 by omega]
    simp only [readTokens]
    cases readToken p with
    | none => simp
    | some tr => simp [ih tr.2]

theorem parseLoop_spec (fuel : Nat) : ∀ (p : List Char) (acc : List (List Char)) (bg : Int),
    (parseLoop fuel p acc bg).argv
        = acc ++ (readTokens fuel p).takeWhile (fun t => decide (t ≠ ampersand)) ∧
    (parseLoop fuel p acc bg).is_background
        = (if ampersand ∈ readTokens fuel p then 1 else bg) ∧
    (parseLoop fuel p acc bg).slots.length ≤ acc.length + fuel + 1 ∧
    (parseLoop fuel p acc bg).slots.getLast? = some none := by
  induction fuel with
  | zero =>
    intro p acc bg
    refine ⟨?_, ?_, ?_, ?_⟩
    · simp [parseLoop, readTokens, argv_of_slots]
    · simp [parseLoop, readTokens]
    · simp [parseLoop]
    · simp [parseLoop]
  | succ fuel ih =>
    intro p acc bg
    by_cases hp : p = []
    · subst hp
      refine ⟨?_, ?_, ?_, ?_⟩
      · simp [parseLoop, readTokens, readToken, argv_of_slots]
      · simp [parseLoop, readTokens, readToken]
      · simp [parseLoop]
      · simp [parseLoop]
    · cases hr : readToken p with
      | none =>
        refine ⟨?_, ?_, ?_, ?_⟩
        · simp [parseLoop, hp, hr, readTokens, argv_of_slots]
        · simp [parseLoop, hp, hr, readTokens]
        · simp [parseLoop, hp, hr]
        · simp [parseLoop, hp, hr]
      | some tr =>
        obtain ⟨tok, rest⟩ := tr
        by_cases ht : tok = ampersand
        · refine ⟨?_, ?_, ?_, ?_⟩
          · simp [parseLoop, hp, hr, ht, readTokens, argv_of_slots]
          · simp [parseLoop, hp, hr, ht, readTokens]
          · simp [parseLoop, hp, hr, ht]
          · simp [parseLoop, hp, hr, ht]
        · obtain ⟨h1, h2, h3, h4⟩ := ih rest (acc ++ [tok]) bg
          have hne : ¬ ampersand = tok := fun e => ht e.symm
          refine ⟨?_, ?_, ?_, ?_⟩
          · simp [parseLoop, hp, hr, ht, readTokens, h1, List.takeWhile_cons]
          · simp [parseLoop, hp, hr, ht, readTokens, h2, hne]
          · simp only [parseLoop, hp, hr, ht, if_false]
            simp only [List.length_append, List.length_singleton] at h3
            omega
          · simp only [parseLoop, hp, hr, ht, if_false]
            exact h4

theorem split_first (a : List Char) : ∀ ts : List (List Char), a ∈ ts →
    ∃ before after, ts = before ++ a :: after ∧ a ∉ before ∧
      ts.takeWhile (fun t => decide (t ≠ a)) = before := by
  intro ts
  induction ts with
  | nil => intro h; simp at h
  | cons t ts ih =>
    intro h
    by_cases ht : t = a
    · subst ht
      exact ⟨[], ts, rfl, by simp, by simp⟩
    · have hmem : a ∈ ts := by
        rcases List.mem_cons.mp h with e | e
        · exact absurd e.symm ht
        · exact e
      obtain ⟨before, after, h1, h2, h3⟩ := ih hmem
      refine ⟨t :: before, after, by rw [h1]; rfl, ?_, ?_⟩
      · intro hin
        rcases List.mem_cons.mp hin with e | e
        · exact ht e.symm
        · exact h2 e
      · rw [List.takeWhile_cons, if_pos (decide_eq_true ht), h3]

theorem takeWhile_of_not_mem (a : List Char) : ∀ ts : List (List Char), a ∉ ts →
    ts.takeWhile (fun t => decide (t ≠ a)) = ts := by
  intro ts
  induction ts with
  | nil => intro _; rfl
  | cons t ts ih =>
    intro h
    have ht : t ≠ a := fun e => h (by simp [e])
    have hts : a ∉ ts := fun e => h (List.mem_cons_of_mem _ e)
    rw [List.takeWhile_cons, if_pos (decide_eq_true ht), ih hts]

/-- C21. For every input line and every previous value of `*is_background`,
`parse_input` returns a `NULL`-terminated list, written within the `MAX_ARGS`
slots, of at most `MAX_ARGS - 1 = 99` tokens none of which is `"&"`.  With the
tokens it reads being the first 99 tokens of the line (quoted or not): if one of
them is `"&"`, `*is_background` is 1 and the arguments are exactly the tokens
before the first `"&"`; if none is, `*is_background` keeps its value and the
arguments are all the tokens read. -/
theorem parse_input_spec (input : List Char) (bg : Int) :
    (parse_input input bg).argv
      = (readTokens 99 input).takeWhile (fun t => decide (t ≠ ampersand)) ∧
    (parse_input input bg).argv.length ≤ MAX_ARGS - 1 ∧
    (∀ t ∈ (parse_input input bg).argv, t ≠ ampersand) ∧
    (parse_input input bg).slots.length ≤ MAX_ARGS ∧
    (parse_input input bg).slots.getLast? = some none ∧
    (ampersand ∈ readTokens 99 input →
      (parse_input input bg).is_background = 1 ∧
      ∃ before after, readTokens 99 input = before ++ ampersand :: after ∧
        ampersand ∉ before ∧ (parse_input input bg).argv = before) ∧
    (ampersand ∉ readTokens 99 input →
      (parse_input input bg).is_background = bg ∧
      (parse_input input bg).argv = readTokens 99 input) ∧
    (∀ k : Nat, readTokens 99 input = (readTokens (99 + k) input).take 99) := by
  obtain ⟨h1, h2, h3, h4⟩ := parseLoop_spec 99 input [] bg
  simp only [List.nil_append, List.length_nil] at h1 h3
  have hargv : (parse_input input bg).argv
      = (readTokens 99 input).takeWhile (fun t => decide (t ≠ ampersand)) := h1
  refine ⟨hargv, ?_, ?_, ?_, h4, ?_, ?_, fun k => readTokens_take 99 k input⟩
  · rw [hargv]
    have h5 := List.takeWhile_sublist (fun t => decide (t ≠ ampersand))
      (l := readTokens 99 input)
    have h6 := h5.length_le
    have h7 := readTokens_length 99 input
    simp only [MAX_ARGS]
    omega
  · intro t ht
    rw [hargv] at ht
    simpa using List.mem_takeWhile_imp ht
  · simp only [MAX_ARGS]
    exact h3
  · intro hmem
    refine ⟨?_, ?_⟩
    · show (parseLoop 99 input [] bg).is_background = 1
      rw [h2, if_pos hmem]
    · obtain ⟨before, after, e1, e2, e3⟩ := split_first ampersand _ hmem
      exact ⟨before, after, e1, e2, by rw [hargv, e3]⟩
  · intro hmem
    refine ⟨?_, ?_⟩
    · show (parseLoop 99 input [] bg).is_background = bg
      rw [h2, if_neg hmem]
    · rw [hargv, takeWhile_of_not_mem ampersand _ hmem]

/-- Instance: `sleep 5 & echo hi` with `*is_background` 0 at the call, and
`echo "a b" c` with `*is_background` 7 at the call. -/
theorem parse_input_spec_witness :
    ampersand ∈ readTokens 99 "sleep 5 & echo hi".toList ∧
    (parse_input "sleep 5 & echo hi".toList 0).is_background = 1 ∧
    (parse_input "sleep 5 & echo hi".toList 0).argv = ["sleep".toList, "5".toList] ∧
    ampersand ∉ readTokens 99 "echo \"a b\" c".toList ∧
    (parse_input "echo \"a b\" c".toList 7).is_background = 7 ∧
    (parse_input "echo \"a b\" c".toList 7).argv
      = ["echo".toList, "a b".toList, "c".toList] :=
  have w1 := (parse_input_spec "sleep 5 & echo hi".toList 0).2.2.2.2.2.1 (by decide)
  have w2 := (parse_input_spec "echo \"a b\" c".toList 7).2.2.2.2.2.2.1 (by decide)
  ⟨by decide, w1.1, by decide, by decide, w2.1, by decide⟩

end Shell
